import Mathlib

/-!
# Asynchronous SQL operations of mangos-classic (src/shared/Database/SqlOperations.cpp)

A shallow embedding of the operation variants, the query holder and the
result queue.  C++ objects that are reached through pointers live in a
`World`; a nullable pointer is an `Option`.  Every call on an external
collaborator (connection, callback, dispatcher thread, logger, allocator)
is recorded, in program order, in the `trace` of the world.
-/

namespace Mangos

/-- Identity of a `QueryResult` object.  A `QueryResult*` is an
`Option QueryResult`, `none` being `nullptr`. -/
abbrev QueryResult := Nat

/-- Modelled from the spec: the class `SqlStmtParameters` is only forward
declared in SqlOperations.h; the spec calls it an owned bound-parameter set.
It is passed through to the connection untouched. -/
abbrev SqlStmtParameters := List String

/-- The variants of `SqlOperation` (SqlOperations.h).  Pointer members that the
code tests against null are options; `m_callback`, `m_queue` and `m_holder`
name objects of the world. -/
inductive SqlOperation where
  | SqlPlainRequest (m_sql : String)
  | SqlTransaction (m_queue : List SqlOperation)
  | SqlPreparedRequest (m_nIndex : Int) (m_param : SqlStmtParameters)
  | SqlQuery (m_sql : String) (m_callback : Option Nat) (m_queue : Option Nat)
  | SqlQueryHolderEx (m_holder : Option Nat) (m_callback : Option Nat) (m_queue : Option Nat)

/-- The messages handed to `sLog.outError`. -/
inductive LogError where
  | indexOutOfRange (index size : Nat) (sql : String)
  | slotOccupied (index : Nat) (old new : String)
  | emptyFormat (index : Nat)
  | truncated (format : String)
  deriving DecidableEq, Repr

/-- One observable call made by the code, in program order. -/
inductive Event where
  | lock
  | unlock
  | connExecute (sql : String)
  | connExecuteStmt (nIndex : Int) (param : SqlStmtParameters)
  | connQuery (sql : String)
  | beginTransaction
  | commitTransaction
  | rollbackTransaction
  | dbQuery (sql : String)
  | cbSetResult (callback : Nat) (result : Option QueryResult)
  | cbExecute (callback : Nat)
  | cbDelete (callback : Nat)
  | mutexLock (queue : Nat)
  | mutexUnlock (queue : Nat)
  | queuePush (queue callback : Nat)
  | queuePop (queue callback : Nat)
  | delay (thread : Nat)
  | outError (e : LogError)
  | freeText (sql : String)
  | deleteResult (result : Option QueryResult)
  deriving DecidableEq, Repr

/-- The pair `std::pair<const char*, QueryResult*>` of a holder slot. -/
abbrev SqlResultPair := Option String × Option QueryResult

/-- The class `SqlQueryHolder`: its only member is the slot vector. -/
structure SqlQueryHolder where
  m_queries : List SqlResultPair
  deriving DecidableEq, Repr

/-- The interface of the external class `SqlConnection` as this file uses it,
taken as a parameter: each method is a transition of the engine state `σ`.
The values returned by `BeginTransaction` and `RollbackTransaction` are
discarded by the code, so they are plain state transitions here. -/
structure SqlConnection (σ : Type) where
  Execute : String → σ → Bool × σ
  ExecuteStmt : Int → SqlStmtParameters → σ → Bool × σ
  Query : String → σ → Option QueryResult × σ
  BeginTransaction : σ → σ
  CommitTransaction : σ → Bool × σ
  RollbackTransaction : σ → σ

/-- The interface of the external class `Database` as `ManualExecute` uses it. -/
structure Database (σ : Type) where
  Query : String → σ → Option QueryResult × σ

/-- Everything the code can reach: the engine state behind the connection, the
recursion depth of the connection mutex, the trace of calls, the result held by
each callback object, the content of each result queue, each query holder and
the operations pending on each dispatcher thread. -/
structure World (σ : Type) where
  db : σ
  lockDepth : Nat
  trace : List Event
  callbacks : Nat → Option QueryResult
  queues : Nat → List Nat
  holders : Nat → SqlQueryHolder
  threads : Nat → List SqlOperation

namespace World

variable {σ : Type}

/-- Record one call in the trace. -/
@[simps]
def emit (e : Event) (w : World σ) : World σ :=
  { w with trace := w.trace ++ [e] }

/-- Modelled from the spec: `SqlConnection::Lock` is declared outside this
file; the spec asks for a scoped lock on the connection, taken when the guard
is constructed.  Nested guards of one thread are counted (recursive mutex). -/
@[simps]
def lock (w : World σ) : World σ :=
  { w with lockDepth := w.lockDepth + 1, trace := w.trace ++ [Event.lock] }

/-- Modelled from the spec: the destructor of the `SqlConnection::Lock` guard. -/
@[simps]
def unlock (w : World σ) : World σ :=
  { w with lockDepth := w.lockDepth - 1, trace := w.trace ++ [Event.unlock] }

/-- The call `conn->Execute(sql)`. -/
@[simps]
def connExecute (conn : SqlConnection σ) (sql : String) (w : World σ) : Bool × World σ :=
  ((conn.Execute sql w.db).1,
    { w with db := (conn.Execute sql w.db).2, trace := w.trace ++ [Event.connExecute sql] })

/-- The call `conn->ExecuteStmt(nIndex, param)`. -/
@[simps]
def connExecuteStmt (conn : SqlConnection σ) (nIndex : Int) (param : SqlStmtParameters)
    (w : World σ) : Bool × World σ :=
  ((conn.ExecuteStmt nIndex param w.db).1,
    { w with db := (conn.ExecuteStmt nIndex param w.db).2,
             trace := w.trace ++ [Event.connExecuteStmt nIndex param] })

/-- The call `conn->Query(sql)`. -/
@[simps]
def connQuery (conn : SqlConnection σ) (sql : String) (w : World σ) :
    Option QueryResult × World σ :=
  ((conn.Query sql w.db).1,
    { w with db := (conn.Query sql w.db).2, trace := w.trace ++ [Event.connQuery sql] })

/-- The call `conn->BeginTransaction()`. -/
@[simps]
def beginTransaction (conn : SqlConnection σ) (w : World σ) : World σ :=
  { w with db := conn.BeginTransaction w.db, trace := w.trace ++ [Event.beginTransaction] }

/-- The call `conn->CommitTransaction()`. -/
@[simps]
def commitTransaction (conn : SqlConnection σ) (w : World σ) : Bool × World σ :=
  ((conn.CommitTransaction w.db).1,
    { w with db := (conn.CommitTransaction w.db).2,
             trace := w.trace ++ [Event.commitTransaction] })

/-- The call `conn->RollbackTransaction()`. -/
@[simps]
def rollbackTransaction (conn : SqlConnection σ) (w : World σ) : World σ :=
  { w with db := conn.RollbackTransaction w.db, trace := w.trace ++ [Event.rollbackTransaction] }

/-- The call `callback->SetResult(result)` of the external `IQueryCallback`:
the callback object keeps the pointer. -/
@[simps]
def cbSetResult (callback : Nat) (result : Option QueryResult) (w : World σ) : World σ :=
  { w with callbacks := Function.update w.callbacks callback result,
           trace := w.trace ++ [Event.cbSetResult callback result] }

/-- Replace the holder object `self`. -/
@[simps]
def setHolder (self : Nat) (h : SqlQueryHolder) (w : World σ) : World σ :=
  { w with holders := Function.update w.holders self h }

end World

variable {σ : Type}

/-! ## SqlResultQueue -/

/-- The method `SqlResultQueue::Add`: under the queue mutex, push the callback
at the back of `m_queue`. -/
def SqlResultQueue.Add (self : Nat) (callback : Nat) (w : World σ) : World σ :=
  let w := w.emit (Event.mutexLock self)
  let w := { w with queues := Function.update w.queues self (w.queues self ++ [callback]),
                    trace := w.trace ++ [Event.queuePush self callback] }
  w.emit (Event.mutexUnlock self)

/-- The loop of `SqlResultQueue::Update`, by recursion on the content of
`m_queue`: move the front out, pop it, call its `Execute`; the owning pointer
then goes out of scope and deletes the callback.  `IQueryCallback::Execute` is
outside this file and appears as an event only; it runs while the queue mutex
is held, so it cannot push on this queue. -/
def SqlResultQueue.UpdateLoop (self : Nat) : List Nat → World σ → World σ
  | [], w => w
  | callback :: rest, w =>
    let w := { w with queues := Function.update w.queues self rest,
                      trace := w.trace ++ [Event.queuePop self callback] }
    let w := w.emit (Event.cbExecute callback)
    let w := w.emit (Event.cbDelete callback)
    SqlResultQueue.UpdateLoop self rest w

/-- The method `SqlResultQueue::Update`: the guard holds the queue mutex from the
first line to the return. -/
def SqlResultQueue.Update (self : Nat) (w : World σ) : World σ :=
  let w := w.emit (Event.mutexLock self)
  let w := SqlResultQueue.UpdateLoop self (w.queues self) w
  w.emit (Event.mutexUnlock self)

/-! ## SqlQueryHolder -/

/-- The method `SqlQueryHolder::SetResult`: store the result in slot `index`
when the index is in range. -/
def SqlQueryHolder.SetResult (self : Nat) (index : Nat) (result : Option QueryResult)
    (w : World σ) : World σ :=
  let m_queries := (w.holders self).m_queries
  if h : index < m_queries.length then
    w.setHolder self ⟨m_queries.set index ((m_queries.get ⟨index, h⟩).1, result)⟩
  else
    w

/-- The method `SqlQueryHolder::SetQuery`: the index check, then the check that
the slot holds no text, then the assignment of the pair (copy of `sql`, null).
The helper `mangos_strdup` is declared outside this file; it returns a fresh
copy of the text, which is the same string here. -/
def SqlQueryHolder.SetQuery (self : Nat) (index : Nat) (sql : String) (w : World σ) :
    Bool × World σ :=
  let m_queries := (w.holders self).m_queries
  if h : m_queries.length ≤ index then
    (false, w.emit (Event.outError (LogError.indexOutOfRange index m_queries.length sql)))
  else
    match (m_queries.get ⟨index, Nat.lt_of_not_le h⟩).1 with
    | some old => (false, w.emit (Event.outError (LogError.slotOccupied index old sql)))
    | none => (true, w.setHolder self ⟨m_queries.set index (some sql, none)⟩)

/-- The method `SqlQueryHolder::SetPQuery`.  `format` is the nullable format
pointer; `res` and `szQuery` are what the library call
`vsnprintf(szQuery, MAX_QUERY_LEN, format, ap)` returned and left in the buffer. -/
def SqlQueryHolder.SetPQuery (self : Nat) (index : Nat) (format : Option String)
    (res : Int) (szQuery : String) (w : World σ) : Bool × World σ :=
  match format with
  | none => (false, w.emit (Event.outError (LogError.emptyFormat index)))
  | some fmt =>
    if res = -1 then
      (false, w.emit (Event.outError (LogError.truncated fmt)))
    else
      SqlQueryHolder.SetQuery self index szQuery w

/-- The method `SqlQueryHolder::GetResult`: in range, free the text of the slot
if it is still there and return the stored result; out of range, null. -/
def SqlQueryHolder.GetResult (self : Nat) (index : Nat) (w : World σ) :
    Option QueryResult × World σ :=
  let m_queries := (w.holders self).m_queries
  if h : index < m_queries.length then
    match (m_queries.get ⟨index, h⟩).1 with
    | some text =>
      let w := w.emit (Event.freeText text)
      let w := w.setHolder self ⟨m_queries.set index (none, (m_queries.get ⟨index, h⟩).2)⟩
      ((m_queries.get ⟨index, h⟩).2, w)
    | none => ((m_queries.get ⟨index, h⟩).2, w)
  else
    (none, w)

/-- The method `SqlQueryHolder::SetSize`: `m_queries.resize(size)` keeps the
first `size` pairs and fills up with value-initialised (null, null) pairs. -/
def SqlQueryHolder.SetSize (self : Nat) (size : Nat) (w : World σ) : World σ :=
  let m_queries := (w.holders self).m_queries
  w.setHolder self
    ⟨m_queries.take size ++ List.replicate (size - m_queries.length) (none, none)⟩

/-- The call `db->Query(sql)` of `ManualExecute`. -/
@[simps]
def World.dbQuery (db : Database σ) (sql : String) (w : World σ) :
    Option QueryResult × World σ :=
  ((db.Query sql w.db).1,
    { w with db := (db.Query sql w.db).2, trace := w.trace ++ [Event.dbQuery sql] })

/-- The range-for loop of `SqlQueryHolder::ManualExecute` over the slots still
to visit: a slot with text gets the result of its query. -/
def SqlQueryHolder.ManualExecuteLoop (db : Database σ) :
    List SqlResultPair → World σ → List SqlResultPair × World σ
  | [], w => ([], w)
  | query :: rest, w =>
    match query.1 with
    | some sql =>
      let r := w.dbQuery db sql
      let t := SqlQueryHolder.ManualExecuteLoop db rest r.2
      ((some sql, r.1) :: t.1, t.2)
    | none =>
      let t := SqlQueryHolder.ManualExecuteLoop db rest w
      (query :: t.1, t.2)

/-- The method `SqlQueryHolder::ManualExecute(Database* db)`. -/
def SqlQueryHolder.ManualExecute (self : Nat) (db : Option (Database σ)) (w : World σ) :
    Bool × World σ :=
  match db with
  | some d =>
    let t := SqlQueryHolder.ManualExecuteLoop d (w.holders self).m_queries w
    (true, t.2.setHolder self ⟨t.1⟩)
  | none => (false, w)

/-- Modelled from the spec: `SqlDelayThread::Delay` is declared outside this
file; the spec gives the dispatcher an `enqueue(operation)` that takes
ownership and serves operations in FIFO order. -/
@[simps]
def World.delay (thread : Nat) (op : SqlOperation) (w : World σ) : World σ :=
  { w with threads := Function.update w.threads thread (w.threads thread ++ [op]),
           trace := w.trace ++ [Event.delay thread] }

/-- The method `SqlQueryHolder::Execute(callback, thread, queue)`. -/
def SqlQueryHolder.Execute (self : Nat) (callback thread queue : Option Nat) (w : World σ) :
    Bool × World σ :=
  match callback, thread, queue with
  | some cb, some th, some q =>
    (true, w.delay th (SqlOperation.SqlQueryHolderEx (some self) (some cb) (some q)))
  | _, _, _ => (false, w)

/-- The loop of the destructor `SqlQueryHolder::~SqlQueryHolder`: a slot that
still has its text gets the text freed and the result deleted. -/
def SqlQueryHolder.destroyLoop : List SqlResultPair → World σ → World σ
  | [], w => w
  | m_querie :: rest, w =>
    match m_querie.1 with
    | some text =>
      SqlQueryHolder.destroyLoop rest
        ((w.emit (Event.freeText text)).emit (Event.deleteResult m_querie.2))
    | none => SqlQueryHolder.destroyLoop rest w

/-- The destructor `SqlQueryHolder::~SqlQueryHolder`. -/
def SqlQueryHolder.destroy (self : Nat) (w : World σ) : World σ :=
  SqlQueryHolder.destroyLoop (w.holders self).m_queries w

/-- The loop of `SqlQueryHolderEx::Execute` from index `i` on; `fuel` is the
number of slots still to visit.  The slot vector is read again from the holder
at every step, as the code does through its reference. -/
def SqlQueryHolderEx.ExecuteLoop (conn : SqlConnection σ) (m_holder : Nat) :
    Nat → Nat → World σ → World σ
  | 0, _, w => w
  | fuel + 1, i, w =>
    let queries := (w.holders m_holder).m_queries
    if h : i < queries.length then
      match (queries.get ⟨i, h⟩).1 with
      | some sql =>
        let r := w.connQuery conn sql
        SqlQueryHolderEx.ExecuteLoop conn m_holder fuel (i + 1)
          (SqlQueryHolder.SetResult m_holder i r.1 r.2)
      | none => SqlQueryHolderEx.ExecuteLoop conn m_holder fuel (i + 1) w
    else
      w

/-! ## SqlOperation::Execute -/

mutual

/-- The virtual method `SqlOperation::Execute(SqlConnection* conn)` of the five
variants.  `LOCK_DB_CONN` constructs the guard; the guard is released after the
returned value has been computed. -/
def SqlOperation.Execute (conn : SqlConnection σ) : SqlOperation → World σ → Bool × World σ
  | .SqlPlainRequest m_sql, w =>
    let r := w.lock.connExecute conn m_sql
    (r.1, r.2.unlock)
  | .SqlTransaction m_queue, w =>
    if m_queue.isEmpty then
      (true, w)
    else
      let r := SqlTransaction.ExecuteLoop conn m_queue (w.lock.beginTransaction conn)
      if r.1 then
        let c := r.2.commitTransaction conn
        (c.1, c.2.unlock)
      else
        (false, r.2.unlock)
  | .SqlPreparedRequest m_nIndex m_param, w =>
    let r := w.lock.connExecuteStmt conn m_nIndex m_param
    (r.1, r.2.unlock)
  | .SqlQuery m_sql m_callback m_queue, w =>
    match m_callback, m_queue with
    | some callback, some queue =>
      let r := w.lock.connQuery conn m_sql
      let w := r.2.cbSetResult callback r.1
      let w := SqlResultQueue.Add queue callback w
      (true, w.unlock)
    | _, _ => (false, w)
  | .SqlQueryHolderEx m_holder m_callback m_queue, w =>
    match m_holder, m_callback, m_queue with
    | some holder, some callback, some queue =>
      let w := w.lock
      let w := SqlQueryHolderEx.ExecuteLoop conn holder (w.holders holder).m_queries.length 0 w
      let w := SqlResultQueue.Add queue callback w
      (true, w.unlock)
    | _, _, _ => (false, w)

/-- The loop `for (int i = 0; i < nItems; ++i)` of `SqlTransaction::Execute` over
the children still to run.  The result is `false` as soon as a child returns
`false`, after `RollbackTransaction` has been called; `true` when the loop runs
to its end.  The number of children is taken to fit the `int` counter. -/
def SqlTransaction.ExecuteLoop (conn : SqlConnection σ) :
    List SqlOperation → World σ → Bool × World σ
  | [], w => (true, w)
  | pStmt :: rest, w =>
    let r := SqlOperation.Execute conn pStmt w
    if r.1 then
      SqlTransaction.ExecuteLoop conn rest r.2
    else
      (false, r.2.rollbackTransaction conn)

end

/-- The method `SqlTransaction::DelayExecute`: `m_queue.push_back(sql)`. -/
def SqlTransaction.DelayExecute (m_queue : List SqlOperation) (sql : SqlOperation) :
    List SqlOperation :=
  m_queue ++ [sql]

/-! ## Reference runs used to state the properties -/

/-- Run every operation of the list once, one after the other in list order,
and collect the values they return. -/
def runInOrder (conn : SqlConnection σ) : List SqlOperation → World σ → List Bool × World σ
  | [], w => ([], w)
  | c :: rest, w =>
    ((SqlOperation.Execute conn c w).1 :: (runInOrder conn rest (SqlOperation.Execute conn c w).2).1,
      (runInOrder conn rest (SqlOperation.Execute conn c w).2).2)

/-- A sample connection whose state counts the calls made on it: a statement
fails when its text is `FAIL`, a query returns the current count as result. -/
def sampleConn : SqlConnection Nat where
  Execute := fun sql s => (sql != "FAIL", s + 1)
  ExecuteStmt := fun n _ s => (decide (0 ≤ n), s + 1)
  Query := fun sql s => (if sql = "" then none else some s, s + 1)
  BeginTransaction := fun s => s + 1
  CommitTransaction := fun s => (true, s + 1)
  RollbackTransaction := fun s => s + 1

/-- A world in which nothing has happened yet. -/
def sampleWorld : World Nat where
  db := 0
  lockDepth := 0
  trace := []
  callbacks := fun _ => none
  queues := fun _ => []
  holders := fun _ => ⟨[]⟩
  threads := fun _ => []

/-- Whether the operation is a `SqlTransaction`. -/
def SqlOperation.isTransaction : SqlOperation → Bool
  | .SqlTransaction _ => true
  | _ => false

/-- The three transaction control calls of the connection. -/
def Event.isTxnControl : Event → Bool
  | .beginTransaction => true
  | .commitTransaction => true
  | .rollbackTransaction => true
  | _ => false

/-- The callbacks whose `Execute` was called, in the order of the calls. -/
def invoked : List Event → List Nat
  | [] => []
  | Event.cbExecute callback :: rest => callback :: invoked rest
  | _ :: rest => invoked rest

/-- The events of one round of the loop of `Update` for each callback of the list. -/
def drainEvents (queue : Nat) : List Nat → List Event
  | [] => []
  | callback :: rest =>
    Event.queuePop queue callback :: Event.cbExecute callback :: Event.cbDelete callback ::
      drainEvents queue rest

/-- Call `SqlResultQueue::Add` on the queue for each callback of the list, in order. -/
def addAll (queue : Nat) (cs : List Nat) (w : World σ) : World σ :=
  cs.foldl (fun acc c => SqlResultQueue.Add queue c acc) w

/-- A world whose holders have three slots: slot 0 with text and result 4, slot 1
empty, slot 2 with text and no result yet. -/
def sampleHolderWorld : World Nat where
  db := 0
  lockDepth := 0
  trace := []
  callbacks := fun _ => none
  queues := fun _ => []
  holders := fun _ => ⟨[(some "SELECT 1", some 4), (none, none), (some "SELECT 2", none)]⟩
  threads := fun _ => []

/-! ## Sequences of holder operations -/

/-- One call of a public method of `SqlQueryHolder` that reads or writes the
slots, with its arguments. -/
inductive HolderOp (σ : Type) where
  | SetSize (size : Nat)
  | SetQuery (index : Nat) (sql : String)
  | SetPQuery (index : Nat) (format : Option String) (res : Int) (szQuery : String)
  | GetResult (index : Nat)
  | SetResult (index : Nat) (result : Option QueryResult)
  | ManualExecute (db : Option (Database σ))

/-- The world after the call `op` on the holder `self`. -/
def HolderOp.run (self : Nat) : HolderOp σ → World σ → World σ
  | .SetSize size, w => SqlQueryHolder.SetSize self size w
  | .SetQuery index sql, w => (SqlQueryHolder.SetQuery self index sql w).2
  | .SetPQuery index format res szQuery, w =>
    (SqlQueryHolder.SetPQuery self index format res szQuery w).2
  | .GetResult index, w => (SqlQueryHolder.GetResult self index w).2
  | .SetResult index result, w => SqlQueryHolder.SetResult self index result w
  | .ManualExecute db, w => (SqlQueryHolder.ManualExecute self db w).2

/-- Whether the call `op`, made in world `w`, is a `SetQuery` or `SetPQuery` on
slot `index` that returns true. -/
def HolderOp.setsSlot (self index : Nat) : HolderOp σ → World σ → Bool
  | .SetQuery i sql, w => decide (i = index) && (SqlQueryHolder.SetQuery self i sql w).1
  | .SetPQuery i format res szQuery, w =>
    decide (i = index) && (SqlQueryHolder.SetPQuery self i format res szQuery w).1
  | _, _ => false

/-- The number of `SetQuery` and `SetPQuery` calls on slot `index` that return
true when the calls of the list are made one after the other from world `w`. -/
def successfulSets (self index : Nat) : List (HolderOp σ) → World σ → Nat
  | [], _ => 0
  | op :: rest, w =>
    (if op.setsSlot self index w then 1 else 0) +
      successfulSets self index rest (op.run self w)

/-- Whether the call can take the text of slot `index` away: `GetResult` on that
slot, or `SetSize` to a size that does not keep the slot. -/
def HolderOp.releases (index : Nat) : HolderOp σ → Bool
  | .GetResult i => decide (i = index)
  | .SetSize size => decide (size ≤ index)
  | _ => false

/-- The number of calls of the list that can take the text of slot `index` away. -/
def releaseCount (index : Nat) (ops : List (HolderOp σ)) : Nat :=
  (ops.filter (HolderOp.releases index)).length

/-- The texts of the slots of holder `self`, slot by slot. -/
def World.texts (w : World σ) (self : Nat) : List (Option String) :=
  (w.holders self).m_queries.map Prod.fst

/-- Slot `index` of holder `self` exists and holds a text. -/
def World.HasText (w : World σ) (self index : Nat) : Prop :=
  ∃ t, (w.texts self)[index]? = some (some t)

/-- Reference run over the slots of a holder: going through the slots in index
order, a slot that holds a text is queried with that text (the engine state is
threaded from one query to the next) and gets what the query returned as its
result, its text kept; a slot without text is left as it is. -/
def runSlots (query : String → σ → Option QueryResult × σ) :
    List SqlResultPair → σ → List SqlResultPair × σ
  | [], s => ([], s)
  | (some sql, _) :: rest, s =>
    ((some sql, (query sql s).1) :: (runSlots query rest (query sql s).2).1,
      (runSlots query rest (query sql s).2).2)
  | (none, result) :: rest, s =>
    ((none, result) :: (runSlots query rest s).1, (runSlots query rest s).2)

/-- The texts of the slots that hold one, in index order. -/
def slotTexts : List SqlResultPair → List String
  | [] => []
  | (some sql, _) :: rest => sql :: slotTexts rest
  | (none, _) :: rest => slotTexts rest

/-! ## Scans of a trace -/

/-- The events `SqlResultQueue::Update` appends when the queue holds `l`. -/
def updateEvents (queue : Nat) (l : List Nat) : List Event :=
  [Event.mutexLock queue] ++ drainEvents queue l ++ [Event.mutexUnlock queue]

/-- Whether the mutex of `queue` is held after the event, given whether it was
held before. -/
def mutexHeldAfter (queue : Nat) (held : Bool) : Event → Bool
  | Event.mutexLock q => if q = queue then true else held
  | Event.mutexUnlock q => if q = queue then false else held
  | _ => held

/-- Whether every call of a callback's `Execute` in the trace is made while the
mutex of `queue` is not held; `held` tells whether it is held at the start. -/
def invokedOutsideLock (queue : Nat) : Bool → List Event → Bool
  | _, [] => true
  | held, Event.cbExecute _ :: rest => !held && invokedOutsideLock queue held rest
  | held, e :: rest => invokedOutsideLock queue (mutexHeldAfter queue held e) rest

/-- Whether every call of a callback's `Execute` in the trace is made while the
mutex of `queue` is held; `held` tells whether it is held at the start. -/
def invokedUnderLock (queue : Nat) : Bool → List Event → Bool
  | _, [] => true
  | held, Event.cbExecute _ :: rest => held && invokedUnderLock queue held rest
  | held, e :: rest => invokedUnderLock queue (mutexHeldAfter queue held e) rest

/-- The calls on the connection. -/
def Event.isConnCall : Event → Bool
  | .connExecute _ => true
  | .connExecuteStmt _ _ => true
  | .connQuery _ => true
  | .beginTransaction => true
  | .commitTransaction => true
  | .rollbackTransaction => true
  | _ => false

/-- Scan of a trace with the number of connection guards held, `depth` at the
start: `lock` adds one, `unlock` removes one.  The scan fails (`none`) when a
guard is released while none is held or when a call on the connection is made
while none is held; otherwise it gives the number of guards held at the end. -/
def lockScan : Nat → List Event → Option Nat
  | depth, [] => some depth
  | depth, Event.lock :: rest => lockScan (depth + 1) rest
  | 0, Event.unlock :: _ => none
  | depth + 1, Event.unlock :: rest => lockScan depth rest
  | depth, e :: rest => if e.isConnCall && depth == 0 then none else lockScan depth rest

/-! ## The path of a holder through the dispatcher -/

/-- The constructor `SqlQueryHolder()`: a holder without slots. -/
def SqlQueryHolder.new (self : Nat) (w : World σ) : World σ :=
  w.setHolder self ⟨[]⟩

/-- Call `SetQuery` for the slots from index `i` on: `some sql` stands for a call
`SetQuery(i, sql)`, `none` for a slot on which `SetQuery` is not called. -/
def SqlQueryHolder.setAll (self : Nat) : Nat → List (Option String) → World σ → World σ
  | _, [], w => w
  | i, some sql :: rest, w =>
    SqlQueryHolder.setAll self (i + 1) rest (SqlQueryHolder.SetQuery self i sql w).2
  | i, none :: rest, w => SqlQueryHolder.setAll self (i + 1) rest w

/-- Modelled from the spec: the worker loop of `SqlDelayThread` is declared
outside this file; the spec has the dispatcher pull the queued operations in
submission order and call the `Execute` of each once against a connection.
The operation is taken off the queue of the thread before it is executed. -/
def SqlDelayThread.ProcessRequestsLoop (conn : SqlConnection σ) (thread : Nat) :
    List SqlOperation → World σ → World σ
  | [], w => w
  | op :: rest, w =>
    SqlDelayThread.ProcessRequestsLoop conn thread rest
      (op.Execute conn { w with threads := Function.update w.threads thread rest }).2

/-- Modelled from the spec: one round of the dispatcher thread over the
operations pending on it. -/
def SqlDelayThread.ProcessRequests (conn : SqlConnection σ) (thread : Nat) (w : World σ) :
    World σ :=
  SqlDelayThread.ProcessRequestsLoop conn thread (w.threads thread) w

/-- The scenario of a holder from construction to the drained result queue: a new
holder is sized to the number of slots of `texts` and built by `setAll`, submitted
with `SqlQueryHolder::Execute`, the dispatcher thread runs what is pending on it
against `conn`, and `SqlResultQueue::Update` drains the queue. -/
def holderScenario (conn : SqlConnection σ) (self callback thread queue : Nat)
    (texts : List (Option String)) (w : World σ) : World σ :=
  let w := SqlQueryHolder.new self w
  let w := SqlQueryHolder.SetSize self texts.length w
  let w := SqlQueryHolder.setAll self 0 texts w
  let w := (SqlQueryHolder.Execute self (some callback) (some thread) (some queue) w).2
  let w := SqlDelayThread.ProcessRequests conn thread w
  SqlResultQueue.Update queue w

/-- The library function `vsnprintf(buffer, n, format, ap)` of the C standard
(ISO C99 7.19.6.12), which is not code of this repository.  `rendered` is the
complete text that the format and its arguments produce, as a sequence of C
`char`s: each character of the string stands for one byte, so a text that is
not single-byte (a multi-byte UTF-8 sequence) is to be given byte by byte, and
lengths here are byte counts only under that reading.  The function writes at
most `n - 1` characters of the text, and a terminating null, into the buffer
and returns the length of the complete text whether it fitted or not; it
returns a negative value only on an error, here when that length does not fit
an `int`.  The result is the pair (returned value, text left in the buffer). -/
def vsnprintf (n : Nat) (rendered : String) : Int × String :=
  (if rendered.length ≤ 2147483647 then (rendered.length : Int) else -1,
    String.mk (rendered.data.take (n - 1)))

/-- The call `SetPQuery(index, format, args...)` as a client makes it: `rendered` is
the complete text that `format` and the arguments produce, `MAX_QUERY_LEN` the
size of the buffer `szQuery` (a constant defined outside this file). -/
def SqlQueryHolder.SetPQueryRendered (MAX_QUERY_LEN : Nat) (self : Nat) (index : Nat)
    (format : Option String) (rendered : String) (w : World σ) : Bool × World σ :=
  SqlQueryHolder.SetPQuery self index format (vsnprintf MAX_QUERY_LEN rendered).1
    (vsnprintf MAX_QUERY_LEN rendered).2 w

/-! ## Util.h: wide characters -/

/-- The conversion `uint16(wchar)`: the value modulo 2^16. -/
def uint16 (wchar : Int) : Int :=
  wchar % 65536

/-- The function `isBasicLatinCharacter` of Util.h.  A `wchar_t` is an integer;
`L'a'`, `L'z'`, `L'A'`, `L'Z'` are 0x61, 0x7A, 0x41, 0x5A. -/
def isBasicLatinCharacter (wchar : Int) : Bool :=
  if wchar ≥ 0x61 ∧ wchar ≤ 0x7A then true
  else if wchar ≥ 0x41 ∧ wchar ≤ 0x5A then true
  else false

/-- The function `isExtendedLatinCharacter` of Util.h. -/
def isExtendedLatinCharacter (wchar : Int) : Bool :=
  if isBasicLatinCharacter wchar then true
  else if wchar ≥ 0x00C0 ∧ wchar ≤ 0x00D6 then true
  else if wchar ≥ 0x00D8 ∧ wchar ≤ 0x00DF then true
  else if wchar = 0x00DF then true
  else if wchar ≥ 0x00E0 ∧ wchar ≤ 0x00F6 then true
  else if wchar ≥ 0x00F8 ∧ wchar ≤ 0x00FE then true
  else if wchar ≥ 0x0100 ∧ wchar ≤ 0x012F then true
  else if wchar = 0x1E9E then true
  else false

/-- The function `isCyrillicCharacter` of Util.h. -/
def isCyrillicCharacter (wchar : Int) : Bool :=
  if wchar ≥ 0x0410 ∧ wchar ≤ 0x044F then true
  else if wchar = 0x0401 ∨ wchar = 0x0451 then true
  else false

/-- The function `wcharToUpper` of Util.h.  The block for 0x0101..0x012F returns
only for an odd value and otherwise goes on with the tests after it; that is
one test on the range and the parity together.  Every returned value lies in
0..0xFFFF, so the final conversion to `wchar_t` keeps it. -/
def wcharToUpper (wchar : Int) : Int :=
  if wchar ≥ 0x61 ∧ wchar ≤ 0x7A then uint16 wchar - 0x0020
  else if wchar = 0x00DF then 0x1E9E
  else if wchar ≥ 0x00E0 ∧ wchar ≤ 0x00F6 then uint16 wchar - 0x0020
  else if wchar ≥ 0x00F8 ∧ wchar ≤ 0x00FE then uint16 wchar - 0x0020
  else if (wchar ≥ 0x0101 ∧ wchar ≤ 0x012F) ∧ wchar % 2 = 1 then uint16 wchar - 0x0001
  else if wchar ≥ 0x0430 ∧ wchar ≤ 0x044F then uint16 wchar - 0x0020
  else if wchar = 0x0451 then 0x0401
  else wchar

/-- The function `wcharToLower` of Util.h, with the block for 0x0100..0x012E
written as one test in the same way. -/
def wcharToLower (wchar : Int) : Int :=
  if wchar ≥ 0x41 ∧ wchar ≤ 0x5A then uint16 wchar + 0x0020
  else if wchar ≥ 0x00C0 ∧ wchar ≤ 0x00D6 then uint16 wchar + 0x0020
  else if wchar ≥ 0x00D8 ∧ wchar ≤ 0x00DE then uint16 wchar + 0x0020
  else if (wchar ≥ 0x0100 ∧ wchar ≤ 0x012E) ∧ wchar % 2 = 0 then uint16 wchar + 0x0001
  else if wchar = 0x1E9E then 0x00DF
  else if wchar = 0x0401 then 0x0451
  else if wchar ≥ 0x0410 ∧ wchar ≤ 0x042F then uint16 wchar + 0x0020
  else wchar

/-! ## Util.h: the die for combat rolls -/

/-- The loop of `Die::roll` from side `side` on, with the value `rolling` reached
so far and the chances `chance[side]`, `chance[side + 1]`, ... still to visit.
`rolling` is a `uint32`: the addition wraps modulo 2^32.  The result is the side
at which the loop returns, `none` when it runs to its end.  The counter `side`
is a `uint8` below the template parameter `Sides`, which is at most 255, so it
does not wrap. -/
def Die.rollLoop (random : Nat) : Nat → Nat → List Nat → Option Nat
  | _, _, [] => none
  | side, rolling, c :: rest =>
    if c ≠ 0 then
      if random ≤ (rolling + c) % 4294967296 then
        some side
      else
        Die.rollLoop random (side + 1) ((rolling + c) % 4294967296) rest
    else
      Die.rollLoop random (side + 1) rolling rest

/-- The side at which the loop of `Die::roll` returns for the table `chance`,
`none` when the loop runs to its end. -/
def Die.rollSide (chance : List Nat) (random : Nat) : Option Nat :=
  Die.rollLoop random 0 0 chance

/-- The method `Die::roll(random)`: `Side(side)` for the side at which the loop
returns, `Default` when the loop runs to its end.  `toSide` is the conversion
`Side(side)` to the template parameter type `Side`. -/
def Die.roll {Side : Type} (Default : Side) (toSide : Nat → Side) (chance : List Nat)
    (random : Nat) : Side :=
  match Die.rollSide chance random with
  | some side => toSide side
  | none => Default

/-- Side `s` of the table has a chance that is not zero and `random` is at most
the sum of the chances of the sides `0..s`, taken modulo 2^32, added to `base`. -/
def Die.Hits (base : Nat) (chance : List Nat) (random s : Nat) : Prop :=
  ∃ c, chance[s]? = some c ∧ c ≠ 0 ∧
    random ≤ (base + (chance.take (s + 1)).sum) % 4294967296

/-- The events of the destructor `SqlQueryHolder::~SqlQueryHolder` for the slots
of the list: for each slot that holds a text, in index order, the text freed and
the result deleted; nothing for a slot without text. -/
def destroyEvents : List SqlResultPair → List Event
  | [] => []
  | (some text, result) :: rest =>
    Event.freeText text :: Event.deleteResult result :: destroyEvents rest
  | (none, _) :: rest => destroyEvents rest

/-! ## Accounting of the texts a holder owns -/

/-- The texts freed in a trace, in the order of the `freeText` events. -/
def freed : List Event → List String
  | [] => []
  | Event.freeText text :: rest => text :: freed rest
  | _ :: rest => freed rest

/-- The text the holder takes ownership of in the call `op` made in world `w`: the
copy stored by a `SetQuery` or `SetPQuery` that returns true. -/
def HolderOp.adopts (self : Nat) : HolderOp σ → World σ → List String
  | .SetQuery index sql, w =>
    if (SqlQueryHolder.SetQuery self index sql w).1 then [sql] else []
  | .SetPQuery index format res szQuery, w =>
    if (SqlQueryHolder.SetPQuery self index format res szQuery w).1 then [szQuery] else []
  | _, _ => []

/-- The texts of the slots that the call `op` removes from the holder: the slots
from `size` on in a `SetSize(size)`. -/
def HolderOp.drops (self : Nat) : HolderOp σ → World σ → List String
  | .SetSize size, w => slotTexts ((w.holders self).m_queries.drop size)
  | _, _ => []

/-- The world after the calls of the list, made one after the other. -/
def runOps (self : Nat) : List (HolderOp σ) → World σ → World σ
  | [], w => w
  | op :: rest, w => runOps self rest (op.run self w)

/-- The texts adopted over the calls of the list. -/
def adoptedBy (self : Nat) : List (HolderOp σ) → World σ → List String
  | [], _ => []
  | op :: rest, w => op.adopts self w ++ adoptedBy self rest (op.run self w)

/-- The texts of the slots removed by `SetSize` over the calls of the list. -/
def droppedBy (self : Nat) : List (HolderOp σ) → World σ → List String
  | [], _ => []
  | op :: rest, w => op.drops self w ++ droppedBy self rest (op.run self w)

/-! # Properties -/

/-! ## What a call appends to the trace -/

theorem SqlResultQueue.Add_trace (self callback : Nat) (w : World σ) :
    (SqlResultQueue.Add self callback w).trace =
      w.trace ++ [Event.mutexLock self, Event.queuePush self callback, Event.mutexUnlock self] := by
  simp [SqlResultQueue.Add]

theorem SqlQueryHolder.SetResult_trace (self index : Nat) (r : Option QueryResult) (w : World σ) :
    (SqlQueryHolder.SetResult self index r w).trace = w.trace := by
  unfold SqlQueryHolder.SetResult
  simp only
  split <;> simp

theorem SqlQueryHolderEx.ExecuteLoop_trace (conn : SqlConnection σ) (holder : Nat) :
    ∀ (fuel i : Nat) (w : World σ),
      ∃ d, (SqlQueryHolderEx.ExecuteLoop conn holder fuel i w).trace = w.trace ++ d ∧
        ∀ e ∈ d, ∃ sql, e = Event.connQuery sql
  | 0, _, w => ⟨[], by simp [SqlQueryHolderEx.ExecuteLoop]⟩
  | fuel + 1, i, w => by
    unfold SqlQueryHolderEx.ExecuteLoop
    simp only
    split
    · split
      · rename_i sql _
        obtain ⟨d, hd, hq⟩ := SqlQueryHolderEx.ExecuteLoop_trace conn holder fuel (i + 1)
          (SqlQueryHolder.SetResult holder i (w.connQuery conn sql).1 (w.connQuery conn sql).2)
        refine ⟨Event.connQuery sql :: d, ?_, ?_⟩
        · rw [hd, SqlQueryHolder.SetResult_trace]
          simp
        · intro e he
          rcases List.mem_cons.1 he with h | h
          · exact ⟨sql, h⟩
          · exact hq e h
      · exact SqlQueryHolderEx.ExecuteLoop_trace conn holder fuel (i + 1) w
    · exact ⟨[], by simp⟩

mutual

theorem SqlOperation.Execute_delta (conn : SqlConnection σ) :
    ∀ (op : SqlOperation) (w : World σ),
      ∃ d, (op.Execute conn w).2.trace = w.trace ++ d ∧
        ((op.Execute conn w).1 = true → Event.rollbackTransaction ∉ d) ∧
        (op.isTransaction = false → ∀ e ∈ d, e.isTxnControl = false)
  | .SqlPlainRequest m_sql, w =>
    ⟨[Event.lock, Event.connExecute m_sql, Event.unlock], by
      simp [SqlOperation.Execute, Event.isTxnControl]⟩
  | .SqlTransaction m_queue, w => by
    obtain ⟨d, hd, hr⟩ :=
      SqlTransaction.ExecuteLoop_delta conn m_queue (w.lock.beginTransaction conn)
    unfold SqlOperation.Execute
    by_cases he : m_queue.isEmpty = true
    · exact ⟨[], by simp [he]⟩
    · simp only [he]
      by_cases hl : (SqlTransaction.ExecuteLoop conn m_queue (w.lock.beginTransaction conn)).1 = true
      · refine ⟨[Event.lock, Event.beginTransaction] ++ d ++
          [Event.commitTransaction, Event.unlock], ?_, ?_, ?_⟩
        · simp [hl, hd]
        · intro _
          simpa using hr hl
        · simp [SqlOperation.isTransaction]
      · refine ⟨[Event.lock, Event.beginTransaction] ++ d ++ [Event.unlock], ?_, ?_, ?_⟩
        · simp [hl, hd]
        · simp [hl]
        · simp [SqlOperation.isTransaction]
  | .SqlPreparedRequest m_nIndex m_param, w =>
    ⟨[Event.lock, Event.connExecuteStmt m_nIndex m_param, Event.unlock], by
      simp [SqlOperation.Execute, Event.isTxnControl]⟩
  | .SqlQuery m_sql m_callback m_queue, w => by
    unfold SqlOperation.Execute
    split
    · rename_i callback queue
      refine ⟨[Event.lock, Event.connQuery m_sql,
        Event.cbSetResult callback (conn.Query m_sql w.db).1, Event.mutexLock queue,
        Event.queuePush queue callback, Event.mutexUnlock queue, Event.unlock], ?_⟩
      simp [SqlResultQueue.Add_trace, Event.isTxnControl]
    · exact ⟨[], by simp⟩
  | .SqlQueryHolderEx m_holder m_callback m_queue, w => by
    unfold SqlOperation.Execute
    split
    · rename_i holder callback queue
      obtain ⟨d, hd, hq⟩ := SqlQueryHolderEx.ExecuteLoop_trace conn holder
        (w.lock.holders holder).m_queries.length 0 w.lock
      rw [World.lock_holders] at hd
      have hq2 : ∀ e ∈ d, e.isTxnControl = false := by
        intro e he
        obtain ⟨sql, rfl⟩ := hq e he
        rfl
      have hq3 : Event.rollbackTransaction ∉ d := by
        intro hm
        obtain ⟨sql, h⟩ := hq _ hm
        cases h
      refine ⟨[Event.lock] ++ d ++ [Event.mutexLock queue,
        Event.queuePush queue callback, Event.mutexUnlock queue, Event.unlock], ?_, ?_, ?_⟩
      · simp [SqlResultQueue.Add_trace, hd]
      · intro _
        simpa using hq3
      · intro _ e he
        simp only [List.mem_append, List.mem_cons, List.mem_singleton, List.not_mem_nil,
          or_false] at he
        rcases he with (rfl | h) | rfl | rfl | rfl | rfl
        · rfl
        · exact hq2 e h
        · rfl
        · rfl
        · rfl
        · rfl
    · exact ⟨[], by simp⟩

theorem SqlTransaction.ExecuteLoop_delta (conn : SqlConnection σ) :
    ∀ (q : List SqlOperation) (w : World σ),
      ∃ d, (SqlTransaction.ExecuteLoop conn q w).2.trace = w.trace ++ d ∧
        ((SqlTransaction.ExecuteLoop conn q w).1 = true → Event.rollbackTransaction ∉ d)
  | [], w => ⟨[], by simp [SqlTransaction.ExecuteLoop]⟩
  | pStmt :: rest, w => by
    obtain ⟨d1, h1, r1, _⟩ := SqlOperation.Execute_delta conn pStmt w
    obtain ⟨d2, h2, r2⟩ :=
      SqlTransaction.ExecuteLoop_delta conn rest (SqlOperation.Execute conn pStmt w).2
    unfold SqlTransaction.ExecuteLoop
    by_cases hr : (SqlOperation.Execute conn pStmt w).1 = true
    · refine ⟨d1 ++ d2, by simp [hr, h2, h1], ?_⟩
      simp only [hr, if_true]
      intro ht
      simp [r1 hr, r2 ht]
    · exact ⟨d1 ++ [Event.rollbackTransaction], by simp [hr, h1], by simp [hr]⟩

end

theorem runInOrder_delta (conn : SqlConnection σ) :
    ∀ (q : List SqlOperation) (w : World σ),
      ∃ d, (runInOrder conn q w).2.trace = w.trace ++ d ∧
        ((∀ b ∈ (runInOrder conn q w).1, b = true) → Event.rollbackTransaction ∉ d) ∧
        ((∀ x ∈ q, x.isTransaction = false) → ∀ e ∈ d, e.isTxnControl = false)
  | [], w => ⟨[], by simp [runInOrder]⟩
  | c :: rest, w => by
    obtain ⟨d1, h1, r1, f1⟩ := SqlOperation.Execute_delta conn c w
    obtain ⟨d2, h2, r2, f2⟩ := runInOrder_delta conn rest (SqlOperation.Execute conn c w).2
    refine ⟨d1 ++ d2, by simp [runInOrder, h2, h1], ?_, ?_⟩
    · intro hall
      simp only [runInOrder, List.mem_cons, forall_eq_or_imp] at hall
      simp [r1 hall.1, r2 hall.2]
    · intro hflat e he
      simp only [List.mem_cons, forall_eq_or_imp] at hflat
      rcases List.mem_append.1 he with h | h
      · exact f1 hflat.1 e h
      · exact f2 hflat.2 e h

theorem runInOrder_append (conn : SqlConnection σ) (c : SqlOperation) :
    ∀ (pre : List SqlOperation) (w : World σ),
      runInOrder conn (pre ++ [c]) w =
        ((runInOrder conn pre w).1 ++ [(c.Execute conn (runInOrder conn pre w).2).1],
          (c.Execute conn (runInOrder conn pre w).2).2)
  | [], w => by simp [runInOrder]
  | x :: pre, w => by
    simp [runInOrder, runInOrder_append conn c pre]

theorem SqlTransaction.ExecuteLoop_all_true (conn : SqlConnection σ) :
    ∀ (q : List SqlOperation) (w : World σ),
      (∀ b ∈ (runInOrder conn q w).1, b = true) →
        SqlTransaction.ExecuteLoop conn q w = (true, (runInOrder conn q w).2)
  | [], w, _ => by simp [SqlTransaction.ExecuteLoop, runInOrder]
  | c :: rest, w, h => by
    simp only [runInOrder, List.mem_cons, forall_eq_or_imp] at h
    unfold SqlTransaction.ExecuteLoop
    simp only [h.1, if_true]
    rw [SqlTransaction.ExecuteLoop_all_true conn rest _ h.2]
    simp [runInOrder]

theorem SqlTransaction.ExecuteLoop_first_false (conn : SqlConnection σ) (c : SqlOperation)
    (post : List SqlOperation) :
    ∀ (pre : List SqlOperation) (w : World σ),
      (∀ b ∈ (runInOrder conn pre w).1, b = true) →
      (c.Execute conn (runInOrder conn pre w).2).1 = false →
        SqlTransaction.ExecuteLoop conn (pre ++ c :: post) w =
          (false, (c.Execute conn (runInOrder conn pre w).2).2.rollbackTransaction conn)
  | [], w, _, hc => by
    simp only [runInOrder] at hc
    simp [SqlTransaction.ExecuteLoop, runInOrder, hc]
  | x :: pre, w, h, hc => by
    simp only [runInOrder, List.mem_cons, forall_eq_or_imp] at h
    simp only [runInOrder] at hc
    simp only [List.cons_append]
    unfold SqlTransaction.ExecuteLoop
    simp only [h.1, if_true]
    rw [SqlTransaction.ExecuteLoop_first_false conn c post pre _ h.2 hc]
    simp [runInOrder]

theorem SqlTransaction.foldl_DelayExecute (children : List SqlOperation) :
    ∀ (acc : List SqlOperation),
      children.foldl SqlTransaction.DelayExecute acc = acc ++ children := by
  induction children with
  | nil => simp
  | cons c rest ih =>
    intro acc
    simp [List.foldl_cons, ih, SqlTransaction.DelayExecute]

/-! ## SqlTransaction::Execute -/

/-- C1: when the children before child `c` all return true in enqueue order and
`c` returns false, `SqlTransaction::Execute` returns false and its run is: take
the lock, `BeginTransaction`, the children up to and including `c` once each in
order, `RollbackTransaction`, release the lock.  The children after `c` play no
part, and the transaction itself calls no `CommitTransaction`: between the
opening `lock, beginTransaction` and the closing `rollbackTransaction, unlock`
the trace holds the events of the executed children only, which contain no
transaction control call at all when none of them is itself a transaction. -/
theorem SqlTransaction.Execute_first_failure (conn : SqlConnection σ)
    (pre : List SqlOperation) (c : SqlOperation) (post : List SqlOperation) (w : World σ)
    (hpre : ∀ b ∈ (runInOrder conn pre (w.lock.beginTransaction conn)).1, b = true)
    (hc : (c.Execute conn (runInOrder conn pre (w.lock.beginTransaction conn)).2).1 = false) :
    (SqlOperation.SqlTransaction (pre ++ c :: post)).Execute conn w =
        (false, ((runInOrder conn (pre ++ [c])
          (w.lock.beginTransaction conn)).2.rollbackTransaction conn).unlock) ∧
      ∃ childEvents : List Event,
        (runInOrder conn (pre ++ [c]) (w.lock.beginTransaction conn)).2.trace =
            w.trace ++ [Event.lock, Event.beginTransaction] ++ childEvents ∧
          ((SqlOperation.SqlTransaction (pre ++ c :: post)).Execute conn w).2.trace =
            w.trace ++ [Event.lock, Event.beginTransaction] ++ childEvents ++
              [Event.rollbackTransaction, Event.unlock] ∧
          ((∀ x ∈ pre ++ [c], x.isTransaction = false) →
            ∀ e ∈ childEvents, e.isTxnControl = false) := by
  have hexec : (SqlOperation.SqlTransaction (pre ++ c :: post)).Execute conn w =
      (false, ((runInOrder conn (pre ++ [c])
        (w.lock.beginTransaction conn)).2.rollbackTransaction conn).unlock) := by
    unfold SqlOperation.Execute
    rw [SqlTransaction.ExecuteLoop_first_false conn c post pre _ hpre hc, runInOrder_append]
    simp
  refine ⟨hexec, ?_⟩
  obtain ⟨d, hd, _, hflat⟩ := runInOrder_delta conn (pre ++ [c]) (w.lock.beginTransaction conn)
  refine ⟨d, ?_, ?_, hflat⟩
  · simp [hd]
  · rw [hexec]
    simp [hd]

/-- C2: a transaction without children returns true and leaves the world as it
was: no lock is taken and no call reaches the connection. -/
theorem SqlTransaction.Execute_empty (conn : SqlConnection σ) (w : World σ) :
    (SqlOperation.SqlTransaction []).Execute conn w = (true, w) := by
  simp [SqlOperation.Execute]

/-- C3: for children added by `DelayExecute` in the order of the list, at least
one of them, that all return true when run in that order, the run of
`SqlTransaction::Execute` is: take the lock, `BeginTransaction`, every child once
in the order added, `CommitTransaction`, release the lock.  The value returned
is the value `CommitTransaction` returned, and no `RollbackTransaction` occurs
anywhere in the events of the run. -/
theorem SqlTransaction.Execute_all_succeed (conn : SqlConnection σ)
    (children : List SqlOperation) (w : World σ) (hne : children ≠ [])
    (hall : ∀ b ∈ (runInOrder conn children (w.lock.beginTransaction conn)).1, b = true) :
    (SqlOperation.SqlTransaction (children.foldl SqlTransaction.DelayExecute [])).Execute conn w =
        ((conn.CommitTransaction (runInOrder conn children (w.lock.beginTransaction conn)).2.db).1,
          ((runInOrder conn children
            (w.lock.beginTransaction conn)).2.commitTransaction conn).2.unlock) ∧
      ∃ childEvents : List Event,
        (runInOrder conn children (w.lock.beginTransaction conn)).2.trace =
            w.trace ++ [Event.lock, Event.beginTransaction] ++ childEvents ∧
          ((SqlOperation.SqlTransaction
              (children.foldl SqlTransaction.DelayExecute [])).Execute conn w).2.trace =
            w.trace ++ [Event.lock, Event.beginTransaction] ++ childEvents ++
              [Event.commitTransaction, Event.unlock] ∧
          Event.rollbackTransaction ∉ childEvents := by
  have hq : children.foldl SqlTransaction.DelayExecute [] = children := by
    simpa using SqlTransaction.foldl_DelayExecute children []
  have hemp : children.isEmpty = false := by
    cases children with
    | nil => exact absurd rfl hne
    | cons _ _ => rfl
  have hexec : (SqlOperation.SqlTransaction children).Execute conn w =
      ((conn.CommitTransaction (runInOrder conn children (w.lock.beginTransaction conn)).2.db).1,
        ((runInOrder conn children
          (w.lock.beginTransaction conn)).2.commitTransaction conn).2.unlock) := by
    unfold SqlOperation.Execute
    rw [SqlTransaction.ExecuteLoop_all_true conn children _ hall]
    simp [hemp]
  rw [hq]
  refine ⟨hexec, ?_⟩
  obtain ⟨d, hd, hroll, _⟩ := runInOrder_delta conn children (w.lock.beginTransaction conn)
  refine ⟨d, ?_, ?_, hroll hall⟩
  · simp [hd]
  · rw [hexec]
    simp [hd]

/-- Witness for C1: a transaction of three statements whose second one fails. -/
theorem SqlTransaction.Execute_first_failure_witness :
    (∀ b ∈ (runInOrder sampleConn [SqlOperation.SqlPlainRequest "a"]
        (sampleWorld.lock.beginTransaction sampleConn)).1, b = true) ∧
      ((SqlOperation.SqlPlainRequest "FAIL").Execute sampleConn
        (runInOrder sampleConn [SqlOperation.SqlPlainRequest "a"]
          (sampleWorld.lock.beginTransaction sampleConn)).2).1 = false ∧
      ((SqlOperation.SqlTransaction ([SqlOperation.SqlPlainRequest "a"] ++
          SqlOperation.SqlPlainRequest "FAIL" :: [SqlOperation.SqlPlainRequest "c"])).Execute
        sampleConn sampleWorld).2.trace =
        [Event.lock, Event.beginTransaction, Event.lock, Event.connExecute "a", Event.unlock,
          Event.lock, Event.connExecute "FAIL", Event.unlock, Event.rollbackTransaction,
          Event.unlock] :=
  ⟨by decide, by decide,
    (congrArg (fun r => r.2.trace)
      (SqlTransaction.Execute_first_failure sampleConn [SqlOperation.SqlPlainRequest "a"]
        (SqlOperation.SqlPlainRequest "FAIL") [SqlOperation.SqlPlainRequest "c"] sampleWorld
        (by decide) (by decide)).1).trans (by decide)⟩

/-- Witness for C3: a transaction of two statements that both succeed. -/
theorem SqlTransaction.Execute_all_succeed_witness :
    [SqlOperation.SqlPlainRequest "a", SqlOperation.SqlPlainRequest "b"] ≠ [] ∧
      (∀ b ∈ (runInOrder sampleConn
        [SqlOperation.SqlPlainRequest "a", SqlOperation.SqlPlainRequest "b"]
        (sampleWorld.lock.beginTransaction sampleConn)).1, b = true) ∧
      ((SqlOperation.SqlTransaction
          ([SqlOperation.SqlPlainRequest "a", SqlOperation.SqlPlainRequest "b"].foldl
            SqlTransaction.DelayExecute [])).Execute sampleConn sampleWorld).2.trace =
        [Event.lock, Event.beginTransaction, Event.lock, Event.connExecute "a", Event.unlock,
          Event.lock, Event.connExecute "b", Event.unlock, Event.commitTransaction,
          Event.unlock] :=
  ⟨by simp, by decide,
    (congrArg (fun r => r.2.trace)
      (SqlTransaction.Execute_all_succeed sampleConn
        [SqlOperation.SqlPlainRequest "a", SqlOperation.SqlPlainRequest "b"] sampleWorld
        (by simp) (by decide)).1).trans (by decide)⟩

/-! ## SqlResultQueue -/

theorem invoked_append (a b : List Event) : invoked (a ++ b) = invoked a ++ invoked b := by
  induction a with
  | nil => rfl
  | cons e rest ih =>
    cases e <;> simp [invoked, ih]

theorem invoked_drainEvents (queue : Nat) (cs : List Nat) :
    invoked (drainEvents queue cs) = cs := by
  induction cs with
  | nil => rfl
  | cons c rest ih => simp [drainEvents, invoked, ih]

theorem SqlResultQueue.Add_queues (self callback : Nat) (w : World σ) :
    (SqlResultQueue.Add self callback w).queues self = w.queues self ++ [callback] := by
  simp [SqlResultQueue.Add]

theorem addAll_queues (queue : Nat) :
    ∀ (cs : List Nat) (w : World σ), (addAll queue cs w).queues queue = w.queues queue ++ cs
  | [], w => by simp [addAll]
  | c :: rest, w => by
    have h := addAll_queues queue rest (SqlResultQueue.Add queue c w)
    simp only [addAll, List.foldl_cons] at h ⊢
    rw [h, SqlResultQueue.Add_queues]
    simp

theorem addAll_invoked (queue : Nat) :
    ∀ (cs : List Nat) (w : World σ), invoked (addAll queue cs w).trace = invoked w.trace
  | [], w => by simp [addAll]
  | c :: rest, w => by
    have h := addAll_invoked queue rest (SqlResultQueue.Add queue c w)
    simp only [addAll, List.foldl_cons] at h ⊢
    rw [h, SqlResultQueue.Add_trace, invoked_append]
    simp [invoked]

theorem SqlResultQueue.UpdateLoop_trace (self : Nat) :
    ∀ (l : List Nat) (w : World σ),
      (SqlResultQueue.UpdateLoop self l w).trace = w.trace ++ drainEvents self l
  | [], w => by simp [SqlResultQueue.UpdateLoop, drainEvents]
  | c :: rest, w => by
    unfold SqlResultQueue.UpdateLoop
    simp only
    rw [SqlResultQueue.UpdateLoop_trace self rest]
    simp [drainEvents]

theorem SqlResultQueue.UpdateLoop_queues (self : Nat) :
    ∀ (l : List Nat) (w : World σ), w.queues self = l →
      (SqlResultQueue.UpdateLoop self l w).queues self = []
  | [], w, h => by simpa [SqlResultQueue.UpdateLoop] using h
  | c :: rest, w, _ => by
    unfold SqlResultQueue.UpdateLoop
    simp only
    apply SqlResultQueue.UpdateLoop_queues self rest
    simp

theorem SqlResultQueue.Update_trace (self : Nat) (w : World σ) :
    (SqlResultQueue.Update self w).trace =
      w.trace ++ [Event.mutexLock self] ++ drainEvents self (w.queues self) ++
        [Event.mutexUnlock self] := by
  simp [SqlResultQueue.Update, SqlResultQueue.UpdateLoop_trace]

theorem SqlResultQueue.Update_queues (self : Nat) (w : World σ) :
    (SqlResultQueue.Update self w).queues self = [] := by
  simp only [SqlResultQueue.Update, World.emit_queues]
  apply SqlResultQueue.UpdateLoop_queues
  simp

/-- C4: after the callbacks `cs` have been passed to `SqlResultQueue::Add` in list
order on an empty queue, the queue holds exactly `cs`; `Update` then pops and
calls `Execute` on each of them once, in that order, between one acquisition
and one release of the queue mutex, so the callbacks invoked by `Update` are
exactly `cs` in order; the queue is empty afterwards and a second `Update`
takes and releases the mutex without invoking anything. -/
theorem SqlResultQueue.Update_fifo (queue : Nat) (cs : List Nat) (w : World σ)
    (hempty : w.queues queue = []) :
    (addAll queue cs w).queues queue = cs ∧
      (SqlResultQueue.Update queue (addAll queue cs w)).trace =
        (addAll queue cs w).trace ++ [Event.mutexLock queue] ++ drainEvents queue cs ++
          [Event.mutexUnlock queue] ∧
      invoked (SqlResultQueue.Update queue (addAll queue cs w)).trace =
        invoked w.trace ++ cs ∧
      (SqlResultQueue.Update queue (addAll queue cs w)).queues queue = [] ∧
      (SqlResultQueue.Update queue (SqlResultQueue.Update queue (addAll queue cs w))).trace =
        (SqlResultQueue.Update queue (addAll queue cs w)).trace ++
          [Event.mutexLock queue, Event.mutexUnlock queue] := by
  have hq : (addAll queue cs w).queues queue = cs := by
    rw [addAll_queues, hempty]
    simp
  refine ⟨hq, ?_, ?_, SqlResultQueue.Update_queues _ _, ?_⟩
  · rw [SqlResultQueue.Update_trace, hq]
  · rw [SqlResultQueue.Update_trace, hq]
    simp [invoked_append, invoked_drainEvents, addAll_invoked, invoked]
  · rw [SqlResultQueue.Update_trace queue (SqlResultQueue.Update queue (addAll queue cs w)),
      SqlResultQueue.Update_queues]
    simp [drainEvents]

/-- Witness for C4: three callbacks added to the empty queue 0 of the sample world. -/
theorem SqlResultQueue.Update_fifo_witness :
    sampleWorld.queues 0 = [] ∧
      invoked (SqlResultQueue.Update 0 (addAll 0 [7, 5, 9] sampleWorld)).trace =
        invoked sampleWorld.trace ++ [7, 5, 9] :=
  ⟨rfl, (SqlResultQueue.Update_fifo 0 [7, 5, 9] sampleWorld rfl).2.2.1⟩

/-! ## SqlQueryHolder -/

theorem lookup_eq_some_get {α : Type} (l : List α) (i : Nat) (h : i < l.length) :
    l[i]? = some (l.get ⟨i, h⟩) := by
  simp [List.getElem?_eq_getElem h]

/-- The three ways through `SetQuery`: index out of range, slot occupied, slot free. -/
theorem SqlQueryHolder.SetQuery_cases (self index : Nat) (sql : String) (w : World σ) :
    ((w.holders self).m_queries.length ≤ index ∧
        SqlQueryHolder.SetQuery self index sql w =
          (false, w.emit (Event.outError
            (LogError.indexOutOfRange index (w.holders self).m_queries.length sql)))) ∨
      (∃ old r, (w.holders self).m_queries[index]? = some (some old, r) ∧
        SqlQueryHolder.SetQuery self index sql w =
          (false, w.emit (Event.outError (LogError.slotOccupied index old sql)))) ∨
      (∃ r, (w.holders self).m_queries[index]? = some (none, r) ∧
        SqlQueryHolder.SetQuery self index sql w =
          (true, w.setHolder self ⟨(w.holders self).m_queries.set index (some sql, none)⟩)) := by
  by_cases hle : (w.holders self).m_queries.length ≤ index
  · left
    exact ⟨hle, by simp only [SqlQueryHolder.SetQuery, hle, dite_true]⟩
  · right
    have hlt : index < (w.holders self).m_queries.length := Nat.lt_of_not_le hle
    have hget := lookup_eq_some_get (w.holders self).m_queries index hlt
    unfold SqlQueryHolder.SetQuery
    simp only [hle, dite_false]
    split
    · rename_i old heq
      left
      refine ⟨old, ((w.holders self).m_queries.get ⟨index, hlt⟩).2, ?_, rfl⟩
      rw [hget, ← heq]
    · rename_i heq
      right
      refine ⟨((w.holders self).m_queries.get ⟨index, hlt⟩).2, ?_, rfl⟩
      rw [hget, ← heq]

/-- C5: with an index at or beyond the slot count, `SetQuery` returns false; it
only reports the error, so every holder of the world (slot count, texts and
results of all slots) is as before. -/
theorem SqlQueryHolder.SetQuery_out_of_range (self index : Nat) (sql : String) (w : World σ)
    (h : (w.holders self).m_queries.length ≤ index) :
    (SqlQueryHolder.SetQuery self index sql w).1 = false ∧
      (SqlQueryHolder.SetQuery self index sql w).2.holders = w.holders ∧
      (SqlQueryHolder.SetQuery self index sql w).2 =
        w.emit (Event.outError
          (LogError.indexOutOfRange index (w.holders self).m_queries.length sql)) := by
  have hnone : (w.holders self).m_queries[index]? = none := List.getElem?_eq_none h
  rcases SqlQueryHolder.SetQuery_cases self index sql w with
    ⟨_, he⟩ | ⟨old, r, hs, _⟩ | ⟨r, hs, _⟩
  · rw [he]
    exact ⟨rfl, rfl, rfl⟩
  · rw [hnone] at hs
    cases hs
  · rw [hnone] at hs
    cases hs

/-- Witness for C5: index 3 on the holder of the sample world, which has no slot. -/
theorem SqlQueryHolder.SetQuery_out_of_range_witness :
    (sampleWorld.holders 0).m_queries.length ≤ 3 ∧
      (SqlQueryHolder.SetQuery 0 3 "SELECT 1" sampleWorld).1 = false ∧
      (SqlQueryHolder.SetQuery 0 3 "SELECT 1" sampleWorld).2.holders = sampleWorld.holders :=
  ⟨by decide,
    (SqlQueryHolder.SetQuery_out_of_range 0 3 "SELECT 1" sampleWorld (by decide)).1,
    (SqlQueryHolder.SetQuery_out_of_range 0 3 "SELECT 1" sampleWorld (by decide)).2.1⟩

/-- C6: with an index in range whose slot already holds the text `old`,
`SetQuery` returns false; it only reports the error, so the text and the result
of that slot and every other slot are as before. -/
theorem SqlQueryHolder.SetQuery_occupied (self index : Nat) (sql old : String) (w : World σ)
    (h : index < (w.holders self).m_queries.length)
    (hold : ((w.holders self).m_queries.get ⟨index, h⟩).1 = some old) :
    (SqlQueryHolder.SetQuery self index sql w).1 = false ∧
      (SqlQueryHolder.SetQuery self index sql w).2.holders = w.holders ∧
      (SqlQueryHolder.SetQuery self index sql w).2 =
        w.emit (Event.outError (LogError.slotOccupied index old sql)) := by
  have hget := lookup_eq_some_get (w.holders self).m_queries index h
  rcases SqlQueryHolder.SetQuery_cases self index sql w with
    ⟨hle, _⟩ | ⟨old2, r, hs, he⟩ | ⟨r, hs, _⟩
  · exact absurd h (Nat.not_lt.2 hle)
  · rw [hget] at hs
    have h1 := congrArg Prod.fst (Option.some.inj hs)
    rw [hold] at h1
    cases h1
    rw [he]
    exact ⟨rfl, rfl, rfl⟩
  · rw [hget] at hs
    have h1 := congrArg Prod.fst (Option.some.inj hs)
    rw [hold] at h1
    cases h1

/-- Witness for C6: slot 0 of the sample holder already holds a text. -/
theorem SqlQueryHolder.SetQuery_occupied_witness :
    (SqlQueryHolder.SetQuery 0 0 "SELECT 9" sampleHolderWorld).1 = false ∧
      (SqlQueryHolder.SetQuery 0 0 "SELECT 9" sampleHolderWorld).2.holders =
        sampleHolderWorld.holders :=
  ⟨(SqlQueryHolder.SetQuery_occupied 0 0 "SELECT 9" "SELECT 1" sampleHolderWorld
      (by decide) (by decide)).1,
    (SqlQueryHolder.SetQuery_occupied 0 0 "SELECT 9" "SELECT 1" sampleHolderWorld
      (by decide) (by decide)).2.1⟩

/-- C7: `SetQuery` returns true exactly when the index is in range and the slot
holds no text; then the slot vector afterwards is the old one with slot `index`
replaced by the pair (the given text, null result): same slot count, every
other slot and every other holder as before. -/
theorem SqlQueryHolder.SetQuery_true_iff (self index : Nat) (sql : String) (w : World σ) :
    ((SqlQueryHolder.SetQuery self index sql w).1 = true ↔
        ∃ r, (w.holders self).m_queries[index]? = some (none, r)) ∧
      ((SqlQueryHolder.SetQuery self index sql w).1 = true →
        ((SqlQueryHolder.SetQuery self index sql w).2.holders self).m_queries =
            (w.holders self).m_queries.set index (some sql, none) ∧
          ((SqlQueryHolder.SetQuery self index sql w).2.holders self).m_queries.length =
            (w.holders self).m_queries.length ∧
          ((SqlQueryHolder.SetQuery self index sql w).2.holders self).m_queries[index]? =
            some (some sql, none) ∧
          (∀ j, j ≠ index →
            ((SqlQueryHolder.SetQuery self index sql w).2.holders self).m_queries[j]? =
              (w.holders self).m_queries[j]?) ∧
          (∀ other, other ≠ self →
            (SqlQueryHolder.SetQuery self index sql w).2.holders other = w.holders other) ∧
          (SqlQueryHolder.SetQuery self index sql w).2.trace = w.trace) := by
  rcases SqlQueryHolder.SetQuery_cases self index sql w with
    ⟨hle, he⟩ | ⟨old, r, hs, he⟩ | ⟨r, hs, he⟩
  · have hnone : (w.holders self).m_queries[index]? = none := List.getElem?_eq_none hle
    rw [he, hnone]
    simp
  · rw [he, hs]
    simp
  · have hlt : index < (w.holders self).m_queries.length := by
      rcases Nat.lt_or_ge index (w.holders self).m_queries.length with h | h
      · exact h
      · rw [List.getElem?_eq_none h] at hs
        cases hs
    rw [he]
    refine ⟨⟨fun _ => ⟨r, hs⟩, fun _ => rfl⟩, fun _ => ⟨?_, ?_, ?_, ?_, ?_, ?_⟩⟩
    · simp
    · simp
    · simp [hlt]
    · intro j hj
      simp [List.getElem?_set, Ne.symm hj]
    · intro other ho
      simp [ho]
    · simp

theorem set_get_self {α : Type} :
    ∀ (l : List α) (i : Nat) (h : i < l.length), l.set i (l.get ⟨i, h⟩) = l
  | _ :: _, 0, _ => rfl
  | a :: l, i + 1, h => by
    have ih := set_get_self l i (Nat.lt_of_succ_lt_succ h)
    simp only [List.get_eq_getElem, List.getElem_cons_succ, List.set_cons_succ,
      List.cons.injEq, true_and] at ih ⊢
    exact ih

theorem SqlQueryHolder.GetResult_in_range (self index : Nat) (w : World σ)
    (h : index < (w.holders self).m_queries.length) :
    (SqlQueryHolder.GetResult self index w).1 = ((w.holders self).m_queries.get ⟨index, h⟩).2 ∧
      ((SqlQueryHolder.GetResult self index w).2.holders self).m_queries =
        (w.holders self).m_queries.set index
          (none, ((w.holders self).m_queries.get ⟨index, h⟩).2) ∧
      ∀ other, other ≠ self →
        (SqlQueryHolder.GetResult self index w).2.holders other = w.holders other := by
  unfold SqlQueryHolder.GetResult
  simp only [h, dite_true]
  split
  · refine ⟨rfl, by simp, ?_⟩
    intro other ho
    simp [ho]
  · rename_i heq
    refine ⟨rfl, ?_, fun _ _ => rfl⟩
    have hp : (none, ((w.holders self).m_queries.get ⟨index, h⟩).2) =
        (w.holders self).m_queries.get ⟨index, h⟩ := by
      rw [← heq]
    rw [hp]
    exact (set_get_self _ index h).symm

/-- C8: for an index in range, two calls of `GetResult` in a row both return the
result stored in that slot; after the first call (and after the second) the
slot vector is the old one with the text of slot `index` absent and its result
kept, so every other slot has the text and the result it had, and the other
holders are as before. -/
theorem SqlQueryHolder.GetResult_twice (self index : Nat) (w : World σ)
    (h : index < (w.holders self).m_queries.length) :
    (SqlQueryHolder.GetResult self index w).1 = ((w.holders self).m_queries.get ⟨index, h⟩).2 ∧
      (SqlQueryHolder.GetResult self index (SqlQueryHolder.GetResult self index w).2).1 =
        (SqlQueryHolder.GetResult self index w).1 ∧
      ((SqlQueryHolder.GetResult self index w).2.holders self).m_queries[index]? =
        some (none, ((w.holders self).m_queries.get ⟨index, h⟩).2) ∧
      (∀ j, j ≠ index →
        ((SqlQueryHolder.GetResult self index w).2.holders self).m_queries[j]? =
          (w.holders self).m_queries[j]?) ∧
      ((SqlQueryHolder.GetResult self index
          (SqlQueryHolder.GetResult self index w).2).2.holders self).m_queries =
        ((SqlQueryHolder.GetResult self index w).2.holders self).m_queries ∧
      (∀ other, other ≠ self →
        (SqlQueryHolder.GetResult self index
          (SqlQueryHolder.GetResult self index w).2).2.holders other = w.holders other) := by
  obtain ⟨h1, h2, h3⟩ := SqlQueryHolder.GetResult_in_range self index w h
  have hlen : index <
      ((SqlQueryHolder.GetResult self index w).2.holders self).m_queries.length := by
    rw [h2]
    simpa using h
  obtain ⟨k1, k2, k3⟩ :=
    SqlQueryHolder.GetResult_in_range self index (SqlQueryHolder.GetResult self index w).2 hlen
  have hslot : ((SqlQueryHolder.GetResult self index w).2.holders self).m_queries.get
      ⟨index, hlen⟩ = (none, ((w.holders self).m_queries.get ⟨index, h⟩).2) := by
    simp [h2]
  refine ⟨h1, ?_, ?_, ?_, ?_, ?_⟩
  · rw [k1, hslot, h1]
  · rw [h2]
    simp [h]
  · intro j hj
    rw [h2]
    simp [List.getElem?_set, Ne.symm hj]
  · rw [k2, hslot, h2]
    simp
  · intro other ho
    rw [k3 other ho, h3 other ho]

/-- Witness for C8: slot 0 of the sample holder, which holds a text and result 4. -/
theorem SqlQueryHolder.GetResult_twice_witness :
    0 < (sampleHolderWorld.holders 0).m_queries.length ∧
      (SqlQueryHolder.GetResult 0 0 sampleHolderWorld).1 = some 4 ∧
      (SqlQueryHolder.GetResult 0 0 (SqlQueryHolder.GetResult 0 0 sampleHolderWorld).2).1 =
        (SqlQueryHolder.GetResult 0 0 sampleHolderWorld).1 :=
  ⟨by decide,
    (SqlQueryHolder.GetResult_twice 0 0 sampleHolderWorld (by decide)).1,
    (SqlQueryHolder.GetResult_twice 0 0 sampleHolderWorld (by decide)).2.1⟩

/-- C10: when the callback pointer or the queue pointer of a `SqlQuery` is null,
`Execute` returns false and the world is exactly as before: no lock taken, no
call on the connection, no result attached, nothing added to a queue. -/
theorem SqlQuery.Execute_null (conn : SqlConnection σ) (m_sql : String)
    (m_callback m_queue : Option Nat) (w : World σ)
    (hnull : m_callback = none ∨ m_queue = none) :
    (SqlOperation.SqlQuery m_sql m_callback m_queue).Execute conn w = (false, w) := by
  unfold SqlOperation.Execute
  rcases hnull with h | h
  · subst h
    rfl
  · subst h
    cases m_callback <;> rfl

/-- Witness for C10: a query with a callback but no result queue. -/
theorem SqlQuery.Execute_null_witness :
    ((some 1 : Option Nat) = none ∨ (none : Option Nat) = none) ∧
      (SqlOperation.SqlQuery "SELECT 1" (some 1) none).Execute sampleConn sampleWorld =
        (false, sampleWorld) :=
  ⟨Or.inr rfl, SqlQuery.Execute_null sampleConn "SELECT 1" (some 1) none sampleWorld (Or.inr rfl)⟩

/-! ## Single assignment of a slot -/

/-- C9 as stated fails: on a fresh holder sized to one slot, `SetQuery` on slot 0
returns true, `GetResult` on slot 0 then frees the text, and a second `SetQuery`
on slot 0 returns true as well: two successful assignments of the same slot in
the lifetime of one holder. -/
theorem successfulSets_counterexample :
    (SqlQueryHolder.SetQuery 0 0 "SELECT 1" (SqlQueryHolder.SetSize 0 1 sampleWorld)).1 = true ∧
      (SqlQueryHolder.SetQuery 0 0 "SELECT 2"
        (SqlQueryHolder.GetResult 0 0
          (SqlQueryHolder.SetQuery 0 0 "SELECT 1"
            (SqlQueryHolder.SetSize 0 1 sampleWorld)).2).2).1 = true ∧
      ¬ (successfulSets 0 0
        [(HolderOp.SetSize 1 : HolderOp Nat), HolderOp.SetQuery 0 "SELECT 1",
          HolderOp.GetResult 0, HolderOp.SetQuery 0 "SELECT 2"] sampleWorld ≤ 1) := by
  decide

theorem World.HasText_congr (w w2 : World σ) (self index : Nat)
    (hsame : w2.holders self = w.holders self) (h : w.HasText self index) :
    w2.HasText self index := by
  obtain ⟨t, ht⟩ := h
  exact ⟨t, by simpa [World.texts, hsame] using ht⟩

theorem World.HasText_iff (w : World σ) (self index : Nat) :
    w.HasText self index ↔ ∃ t r, (w.holders self).m_queries[index]? = some (some t, r) := by
  constructor
  · rintro ⟨t, ht⟩
    simp only [World.texts, List.getElem?_map, Option.map_eq_some'] at ht
    obtain ⟨⟨a, r⟩, hp, ha⟩ := ht
    simp only at ha
    subst ha
    exact ⟨t, r, hp⟩
  · rintro ⟨t, r, h⟩
    exact ⟨t, by simp [World.texts, h]⟩

theorem SqlQueryHolder.SetQuery_sets (self index : Nat) (sql : String) (w : World σ)
    (h : (SqlQueryHolder.SetQuery self index sql w).1 = true) :
    ¬ w.HasText self index ∧ (SqlQueryHolder.SetQuery self index sql w).2.HasText self index := by
  rcases SqlQueryHolder.SetQuery_cases self index sql w with
    ⟨_, he⟩ | ⟨old, r, _, he⟩ | ⟨r, hs, he⟩
  · rw [he] at h
    cases h
  · rw [he] at h
    cases h
  · have hlt : index < (w.holders self).m_queries.length := by
      rcases Nat.lt_or_ge index (w.holders self).m_queries.length with h | h
      · exact h
      · rw [List.getElem?_eq_none h] at hs
        cases hs
    constructor
    · rw [World.HasText_iff]
      rintro ⟨t, r2, ht⟩
      rw [hs] at ht
      cases ht
    · rw [he, World.HasText_iff]
      exact ⟨sql, none, by simp [hlt]⟩

theorem SqlQueryHolder.SetQuery_keeps (self i index : Nat) (sql : String) (w : World σ)
    (h : w.HasText self index) :
    (SqlQueryHolder.SetQuery self i sql w).2.HasText self index := by
  rcases SqlQueryHolder.SetQuery_cases self i sql w with
    ⟨_, he⟩ | ⟨old, r, _, he⟩ | ⟨r, hs, he⟩
  · rw [he]
    exact World.HasText_congr w _ self index rfl h
  · rw [he]
    exact World.HasText_congr w _ self index rfl h
  · rw [he]
    rw [World.HasText_iff] at h ⊢
    obtain ⟨t, r2, ht⟩ := h
    have hi : i ≠ index := by
      rintro rfl
      rw [hs] at ht
      cases ht
    exact ⟨t, r2, by simp [List.getElem?_set, hi, ht]⟩

theorem SqlQueryHolder.SetPQuery_cases (self index : Nat) (format : Option String) (res : Int)
    (szQuery : String) (w : World σ) :
    ((SqlQueryHolder.SetPQuery self index format res szQuery w).1 = false ∧
        (SqlQueryHolder.SetPQuery self index format res szQuery w).2.holders = w.holders) ∨
      SqlQueryHolder.SetPQuery self index format res szQuery w =
        SqlQueryHolder.SetQuery self index szQuery w := by
  unfold SqlQueryHolder.SetPQuery
  cases format with
  | none => exact Or.inl ⟨rfl, rfl⟩
  | some fmt =>
    by_cases hr : res = -1
    · dsimp only
      rw [if_pos hr]
      exact Or.inl ⟨rfl, rfl⟩
    · dsimp only
      rw [if_neg hr]
      exact Or.inr rfl

theorem SqlQueryHolder.GetResult_keeps (self i index : Nat) (w : World σ) (hi : i ≠ index)
    (h : w.HasText self index) :
    (SqlQueryHolder.GetResult self i w).2.HasText self index := by
  by_cases hlt : i < (w.holders self).m_queries.length
  · obtain ⟨_, h2, _⟩ := SqlQueryHolder.GetResult_in_range self i w hlt
    rw [World.HasText_iff] at h ⊢
    obtain ⟨t, r, ht⟩ := h
    exact ⟨t, r, by rw [h2]; simp [List.getElem?_set, hi, ht]⟩
  · have he : SqlQueryHolder.GetResult self i w = (none, w) := by
      simp [SqlQueryHolder.GetResult, hlt]
    rw [he]
    exact h

theorem SqlQueryHolder.SetResult_keeps (self i index : Nat) (result : Option QueryResult)
    (w : World σ) (h : w.HasText self index) :
    (SqlQueryHolder.SetResult self i result w).HasText self index := by
  unfold SqlQueryHolder.SetResult
  simp only
  split
  · rename_i hlt
    rw [World.HasText_iff] at h ⊢
    obtain ⟨t, r, ht⟩ := h
    by_cases hi : i = index
    · subst hi
      have hget := lookup_eq_some_get (w.holders self).m_queries i hlt
      rw [hget] at ht
      have h1 := congrArg Prod.fst (Option.some.inj ht)
      simp only at h1
      rw [List.get_eq_getElem] at h1
      exact ⟨t, result, by simp [hlt, h1]⟩
    · exact ⟨t, r, by simp [List.getElem?_set, hi, ht]⟩
  · exact h

theorem SqlQueryHolder.SetSize_keeps (self size index : Nat) (w : World σ)
    (hs : index < size) (h : w.HasText self index) :
    (SqlQueryHolder.SetSize self size w).HasText self index := by
  rw [World.HasText_iff] at h ⊢
  obtain ⟨t, r, ht⟩ := h
  have hlt : index < (w.holders self).m_queries.length := by
    rcases Nat.lt_or_ge index (w.holders self).m_queries.length with h | h
    · exact h
    · rw [List.getElem?_eq_none h] at ht
      cases ht
  refine ⟨t, r, ?_⟩
  simp only [SqlQueryHolder.SetSize, World.setHolder_holders, Function.update_same]
  rw [List.getElem?_append_left (by simp [List.length_take]; omega)]
  rw [List.getElem?_take_of_lt hs]
  exact ht

theorem SqlQueryHolder.ManualExecuteLoop_texts (db : Database σ) :
    ∀ (l : List SqlResultPair) (w : World σ),
      (SqlQueryHolder.ManualExecuteLoop db l w).1.map Prod.fst = l.map Prod.fst
  | [], w => by simp [SqlQueryHolder.ManualExecuteLoop]
  | query :: rest, w => by
    unfold SqlQueryHolder.ManualExecuteLoop
    split
    · rename_i sql heq
      simp [SqlQueryHolder.ManualExecuteLoop_texts db rest, heq]
    · simp [SqlQueryHolder.ManualExecuteLoop_texts db rest]

theorem SqlQueryHolder.ManualExecuteLoop_holders (db : Database σ) :
    ∀ (l : List SqlResultPair) (w : World σ),
      (SqlQueryHolder.ManualExecuteLoop db l w).2.holders = w.holders
  | [], w => by simp [SqlQueryHolder.ManualExecuteLoop]
  | query :: rest, w => by
    unfold SqlQueryHolder.ManualExecuteLoop
    split
    · simp only [SqlQueryHolder.ManualExecuteLoop_holders db rest]
      rfl
    · simp only [SqlQueryHolder.ManualExecuteLoop_holders db rest]

theorem SqlQueryHolder.ManualExecute_texts (self : Nat) (db : Option (Database σ))
    (w : World σ) :
    (SqlQueryHolder.ManualExecute self db w).2.texts self = w.texts self := by
  cases db with
  | none => rfl
  | some d =>
    simp [SqlQueryHolder.ManualExecute, World.texts, SqlQueryHolder.ManualExecuteLoop_texts]

theorem HolderOp.run_keeps (self index : Nat) (op : HolderOp σ) (w : World σ)
    (hrel : op.releases index = false) (h : w.HasText self index) :
    (op.run self w).HasText self index := by
  cases op with
  | SetSize size =>
    have hs : index < size := by
      simpa [HolderOp.releases] using hrel
    exact SqlQueryHolder.SetSize_keeps self size index w hs h
  | SetQuery i sql => exact SqlQueryHolder.SetQuery_keeps self i index sql w h
  | SetPQuery i format res szQuery =>
    rcases SqlQueryHolder.SetPQuery_cases self i format res szQuery w with ⟨_, hh⟩ | he
    · exact World.HasText_congr w _ self index (by simp [HolderOp.run, hh]) h
    · simp only [HolderOp.run, he]
      exact SqlQueryHolder.SetQuery_keeps self i index szQuery w h
  | GetResult i =>
    have hi : i ≠ index := by
      simpa [HolderOp.releases] using hrel
    exact SqlQueryHolder.GetResult_keeps self i index w hi h
  | SetResult i result => exact SqlQueryHolder.SetResult_keeps self i index result w h
  | ManualExecute db =>
    obtain ⟨t, ht⟩ := h
    exact ⟨t, by simpa [HolderOp.run, SqlQueryHolder.ManualExecute_texts] using ht⟩

theorem HolderOp.setsSlot_sets (self index : Nat) (op : HolderOp σ) (w : World σ)
    (h : op.setsSlot self index w = true) :
    ¬ w.HasText self index ∧ (op.run self w).HasText self index := by
  cases op with
  | SetQuery i sql =>
    simp only [HolderOp.setsSlot, Bool.and_eq_true, decide_eq_true_eq] at h
    obtain ⟨rfl, hs⟩ := h
    exact SqlQueryHolder.SetQuery_sets self i sql w hs
  | SetPQuery i format res szQuery =>
    simp only [HolderOp.setsSlot, Bool.and_eq_true, decide_eq_true_eq] at h
    obtain ⟨rfl, hs⟩ := h
    rcases SqlQueryHolder.SetPQuery_cases self i format res szQuery w with ⟨hf, _⟩ | he
    · rw [hf] at hs
      cases hs
    · rw [he] at hs
      simp only [HolderOp.run, he]
      exact SqlQueryHolder.SetQuery_sets self i szQuery w hs
  | SetSize size => simp [HolderOp.setsSlot] at h
  | GetResult i => simp [HolderOp.setsSlot] at h
  | SetResult i result => simp [HolderOp.setsSlot] at h
  | ManualExecute db => simp [HolderOp.setsSlot] at h

theorem successfulSets_bound (self index : Nat) :
    ∀ (ops : List (HolderOp σ)) (w : World σ),
      successfulSets self index ops w ≤ 1 + releaseCount index ops ∧
        (w.HasText self index → successfulSets self index ops w ≤ releaseCount index ops)
  | [], w => by simp [successfulSets]
  | op :: rest, w => by
    obtain ⟨ih1, ih2⟩ := successfulSets_bound self index rest (op.run self w)
    by_cases hset : op.setsSlot self index w = true
    · obtain ⟨hno, hyes⟩ := HolderOp.setsSlot_sets self index op w hset
      have hr := ih2 hyes
      have hc : releaseCount index rest ≤ releaseCount index (op :: rest) := by
        unfold releaseCount
        rw [List.filter_cons]
        split <;> simp
      simp only [successfulSets, hset, if_true]
      exact ⟨by omega, fun ht => absurd ht hno⟩
    · simp only [successfulSets, hset, Bool.false_eq_true, if_false, Nat.zero_add]
      by_cases hrel : op.releases index = true
      · have hc : releaseCount index (op :: rest) = releaseCount index rest + 1 := by
          simp [releaseCount, List.filter_cons, hrel]
        exact ⟨by omega, fun _ => by omega⟩
      · have hrel2 : op.releases index = false := by simpa using hrel
        have hc : releaseCount index (op :: rest) = releaseCount index rest := by
          simp [releaseCount, List.filter_cons, hrel2]
        exact ⟨by omega, fun ht => by
          have := ih2 (HolderOp.run_keeps self index op w hrel2 ht)
          omega⟩

/-- C9, amended: over any sequence of calls of the public holder methods starting
from any state of the holder, the number of `SetQuery` and `SetPQuery` calls on
slot `index` that return true is at most one more than the number of calls in
the sequence that can take the text of that slot away (`GetResult` on that
slot, `SetSize` to a size that does not keep it).  A slot is therefore set
successfully at most once between two such calls, and at most once in a
sequence that has none. -/
theorem successfulSets_le (self index : Nat) (ops : List (HolderOp σ)) (w : World σ) :
    successfulSets self index ops w ≤ 1 + releaseCount index ops :=
  (successfulSets_bound self index ops w).1

/-! ## SqlQuery::Execute and the fire-and-forget statements -/

theorem SqlResultQueue.Add_queues_ne (self callback other : Nat) (w : World σ)
    (h : other ≠ self) :
    (SqlResultQueue.Add self callback w).queues other = w.queues other := by
  simp [SqlResultQueue.Add, h]

theorem SqlResultQueue.Add_fields (self callback : Nat) (w : World σ) :
    (SqlResultQueue.Add self callback w).db = w.db ∧
      (SqlResultQueue.Add self callback w).lockDepth = w.lockDepth ∧
      (SqlResultQueue.Add self callback w).callbacks = w.callbacks ∧
      (SqlResultQueue.Add self callback w).holders = w.holders ∧
      (SqlResultQueue.Add self callback w).threads = w.threads :=
  ⟨rfl, rfl, rfl, rfl, rfl⟩

/-- C11: with a callback and a queue, `SqlQuery::Execute` returns true whatever
the query returns.  Its events are, in this order: take the lock, one `Query`
with the text the operation was constructed with, `SetResult` on the callback
with what that query returned (null included), one push of the callback at the
back of the queue under the queue mutex, release the lock.  Afterwards the
callback holds that result and the queue is the old queue with the callback
appended once; the other queues and the holders are as before. -/
theorem SqlQuery.Execute_publishes (conn : SqlConnection σ) (sql : String)
    (callback queue : Nat) (w : World σ) :
    ((SqlOperation.SqlQuery sql (some callback) (some queue)).Execute conn w).1 = true ∧
      ((SqlOperation.SqlQuery sql (some callback) (some queue)).Execute conn w).2.trace =
        w.trace ++ [Event.lock, Event.connQuery sql,
          Event.cbSetResult callback (conn.Query sql w.db).1, Event.mutexLock queue,
          Event.queuePush queue callback, Event.mutexUnlock queue, Event.unlock] ∧
      ((SqlOperation.SqlQuery sql (some callback) (some queue)).Execute conn w).2.callbacks
        callback = (conn.Query sql w.db).1 ∧
      ((SqlOperation.SqlQuery sql (some callback) (some queue)).Execute conn w).2.queues queue =
        w.queues queue ++ [callback] ∧
      (∀ other, other ≠ queue →
        ((SqlOperation.SqlQuery sql (some callback) (some queue)).Execute conn w).2.queues other =
          w.queues other) ∧
      ((SqlOperation.SqlQuery sql (some callback) (some queue)).Execute conn w).2.db =
        (conn.Query sql w.db).2 ∧
      ((SqlOperation.SqlQuery sql (some callback) (some queue)).Execute conn w).2.holders =
        w.holders := by
  refine ⟨?_, ?_, ?_, ?_, ?_, ?_, ?_⟩
  · simp [SqlOperation.Execute]
  · simp [SqlOperation.Execute, SqlResultQueue.Add_trace]
  · simp [SqlOperation.Execute, SqlResultQueue.Add]
  · simp [SqlOperation.Execute, SqlResultQueue.Add]
  · intro other ho
    simp [SqlOperation.Execute, SqlResultQueue.Add, ho]
  · simp [SqlOperation.Execute, SqlResultQueue.Add]
  · funext x
    simp [SqlOperation.Execute, SqlResultQueue.Add]

/-- C18: `SqlPlainRequest::Execute` makes, under the lock, one `Execute` call on
the connection with the text the request was constructed with and returns what
that call returned; `SqlPreparedRequest::Execute` makes, under the lock, one
`ExecuteStmt` call with the index and the parameters it was constructed with
and returns what that call returned.  Neither changes a callback or a queue. -/
theorem SqlPlainRequest.Execute_once (conn : SqlConnection σ) (sql : String) (nIndex : Int)
    (param : SqlStmtParameters) (w : World σ) :
    ((SqlOperation.SqlPlainRequest sql).Execute conn w).1 = (conn.Execute sql w.db).1 ∧
      ((SqlOperation.SqlPlainRequest sql).Execute conn w).2.trace =
        w.trace ++ [Event.lock, Event.connExecute sql, Event.unlock] ∧
      ((SqlOperation.SqlPlainRequest sql).Execute conn w).2.db = (conn.Execute sql w.db).2 ∧
      ((SqlOperation.SqlPlainRequest sql).Execute conn w).2.callbacks = w.callbacks ∧
      ((SqlOperation.SqlPlainRequest sql).Execute conn w).2.queues = w.queues ∧
      ((SqlOperation.SqlPreparedRequest nIndex param).Execute conn w).1 =
        (conn.ExecuteStmt nIndex param w.db).1 ∧
      ((SqlOperation.SqlPreparedRequest nIndex param).Execute conn w).2.trace =
        w.trace ++ [Event.lock, Event.connExecuteStmt nIndex param, Event.unlock] ∧
      ((SqlOperation.SqlPreparedRequest nIndex param).Execute conn w).2.db =
        (conn.ExecuteStmt nIndex param w.db).2 ∧
      ((SqlOperation.SqlPreparedRequest nIndex param).Execute conn w).2.callbacks =
        w.callbacks ∧
      ((SqlOperation.SqlPreparedRequest nIndex param).Execute conn w).2.queues = w.queues := by
  refine ⟨?_, ?_, ?_, ?_, ?_, ?_, ?_, ?_, ?_, ?_⟩ <;>
    first
      | (simp [SqlOperation.Execute]; done)
      | (funext x; simp [SqlOperation.Execute])

/-! ## SqlQueryHolder::Execute -/

/-- C16: `SqlQueryHolder::Execute` returns false and leaves the world as it was
(nothing on a dispatcher, nothing on a queue) when the callback, the thread or
the queue is null.  With all three present it returns true and its only effect
is one `Delay` call: the operations pending on that thread are the old ones
followed by one `SqlQueryHolderEx` that refers to this holder, that callback
and that queue; no query is made (the engine state is untouched) and the
holders, the callbacks and the result queues are as before. -/
theorem SqlQueryHolder.Execute_submit (self : Nat) (callback thread queue : Option Nat)
    (w : World σ) :
    ((callback = none ∨ thread = none ∨ queue = none) →
        SqlQueryHolder.Execute self callback thread queue w = (false, w)) ∧
      (∀ cb th q, callback = some cb → thread = some th → queue = some q →
        (SqlQueryHolder.Execute self callback thread queue w).1 = true ∧
          (SqlQueryHolder.Execute self callback thread queue w).2.threads th =
            w.threads th ++
              [SqlOperation.SqlQueryHolderEx (some self) (some cb) (some q)] ∧
          (∀ other, other ≠ th →
            (SqlQueryHolder.Execute self callback thread queue w).2.threads other =
              w.threads other) ∧
          (SqlQueryHolder.Execute self callback thread queue w).2.trace =
            w.trace ++ [Event.delay th] ∧
          (SqlQueryHolder.Execute self callback thread queue w).2.db = w.db ∧
          (SqlQueryHolder.Execute self callback thread queue w).2.holders = w.holders ∧
          (SqlQueryHolder.Execute self callback thread queue w).2.callbacks = w.callbacks ∧
          (SqlQueryHolder.Execute self callback thread queue w).2.queues = w.queues) := by
  constructor
  · intro h
    cases callback <;> cases thread <;> cases queue <;> simp_all [SqlQueryHolder.Execute]
  · rintro cb th q rfl rfl rfl
    refine ⟨rfl, ?_, ?_, rfl, rfl, rfl, rfl, rfl⟩
    · simp [SqlQueryHolder.Execute]
    · intro other ho
      simp [SqlQueryHolder.Execute, ho]

/-! ## SqlQueryHolderEx::Execute -/

theorem runSlots_length (query : String → σ → Option QueryResult × σ) :
    ∀ (l : List SqlResultPair) (s : σ), (runSlots query l s).1.length = l.length
  | [], s => rfl
  | (some sql, _) :: rest, s => by simp [runSlots, runSlots_length query rest]
  | (none, r) :: rest, s => by simp [runSlots, runSlots_length query rest]

theorem runSlots_texts (query : String → σ → Option QueryResult × σ) :
    ∀ (l : List SqlResultPair) (s : σ), (runSlots query l s).1.map Prod.fst = l.map Prod.fst
  | [], s => rfl
  | (some sql, _) :: rest, s => by simp [runSlots, runSlots_texts query rest]
  | (none, r) :: rest, s => by simp [runSlots, runSlots_texts query rest]

theorem runSlots_untouched (query : String → σ → Option QueryResult × σ) :
    ∀ (l : List SqlResultPair) (s : σ) (j : Nat) (r : Option QueryResult),
      l[j]? = some (none, r) → (runSlots query l s).1[j]? = some (none, r)
  | [], s, j, r, h => by simp at h
  | (some sql, _) :: rest, s, 0, r, h => by simp at h
  | (none, r0) :: rest, s, 0, r, h => by simpa [runSlots] using h
  | (some sql, _) :: rest, s, j + 1, r, h => by
    simp only [List.getElem?_cons_succ] at h
    simpa [runSlots] using runSlots_untouched query rest _ j r h
  | (none, r0) :: rest, s, j + 1, r, h => by
    simp only [List.getElem?_cons_succ] at h
    simpa [runSlots] using runSlots_untouched query rest _ j r h

theorem SqlQueryHolder.SetResult_in_range (self index : Nat) (result : Option QueryResult)
    (w : World σ) (h : index < (w.holders self).m_queries.length) :
    SqlQueryHolder.SetResult self index result w =
      w.setHolder self
        ⟨(w.holders self).m_queries.set index
          (((w.holders self).m_queries.get ⟨index, h⟩).1, result)⟩ := by
  simp [SqlQueryHolder.SetResult, h]

theorem SqlQueryHolder.SetResult_fields (self index : Nat) (result : Option QueryResult)
    (w : World σ) :
    (SqlQueryHolder.SetResult self index result w).db = w.db ∧
      (SqlQueryHolder.SetResult self index result w).lockDepth = w.lockDepth ∧
      (SqlQueryHolder.SetResult self index result w).callbacks = w.callbacks ∧
      (SqlQueryHolder.SetResult self index result w).queues = w.queues ∧
      (SqlQueryHolder.SetResult self index result w).threads = w.threads ∧
      ∀ other, other ≠ self →
        (SqlQueryHolder.SetResult self index result w).holders other = w.holders other := by
  unfold SqlQueryHolder.SetResult
  simp only
  split
  · refine ⟨rfl, rfl, rfl, rfl, rfl, ?_⟩
    intro other ho
    simp [ho]
  · exact ⟨rfl, rfl, rfl, rfl, rfl, fun _ _ => rfl⟩

theorem SqlQueryHolderEx.ExecuteLoop_step_some (conn : SqlConnection σ) (holder fuel i : Nat)
    (w : World σ) (sql : String) (h : i < (w.holders holder).m_queries.length)
    (hget : ((w.holders holder).m_queries.get ⟨i, h⟩).1 = some sql) :
    SqlQueryHolderEx.ExecuteLoop conn holder (fuel + 1) i w =
      SqlQueryHolderEx.ExecuteLoop conn holder fuel (i + 1)
        (SqlQueryHolder.SetResult holder i (w.connQuery conn sql).1 (w.connQuery conn sql).2) := by
  rw [SqlQueryHolderEx.ExecuteLoop]
  simp only [h, dite_true]
  split
  · rename_i sql2 heq
    rw [hget] at heq
    cases heq
    rfl
  · rename_i heq
    rw [hget] at heq
    cases heq

theorem SqlQueryHolderEx.ExecuteLoop_step_none (conn : SqlConnection σ) (holder fuel i : Nat)
    (w : World σ) (h : i < (w.holders holder).m_queries.length)
    (hget : ((w.holders holder).m_queries.get ⟨i, h⟩).1 = none) :
    SqlQueryHolderEx.ExecuteLoop conn holder (fuel + 1) i w =
      SqlQueryHolderEx.ExecuteLoop conn holder fuel (i + 1) w := by
  rw [SqlQueryHolderEx.ExecuteLoop]
  simp only [h, dite_true]
  split
  · rename_i sql2 heq
    rw [hget] at heq
    cases heq
  · rfl

theorem lookup_append_cons {α : Type} (rest : List α) (p : α) :
    ∀ (done : List α), (done ++ p :: rest)[done.length]? = some p
  | [] => by simp
  | _ :: done => by
    simpa using lookup_append_cons rest p done

theorem get_of_eq_append_cons {α : Type} (l done rest : List α) (p : α)
    (hq : l = done ++ p :: rest) (h : done.length < l.length) :
    l.get ⟨done.length, h⟩ = p := by
  have h1 := lookup_eq_some_get l done.length h
  have h2 : l[done.length]? = some p := by
    rw [hq]
    exact lookup_append_cons rest p done
  rw [h2] at h1
  exact (Option.some.inj h1).symm

/-- What the loop of `SqlQueryHolderEx::Execute` does from slot `done.length` on,
when the slots before it are `done` and the slots still to visit are `todo`. -/
theorem SqlQueryHolderEx.ExecuteLoop_spec (conn : SqlConnection σ) (holder : Nat) :
    ∀ (todo done : List SqlResultPair) (w : World σ),
      (w.holders holder).m_queries = done ++ todo →
      ((SqlQueryHolderEx.ExecuteLoop conn holder todo.length done.length w).holders
          holder).m_queries = done ++ (runSlots conn.Query todo w.db).1 ∧
        (SqlQueryHolderEx.ExecuteLoop conn holder todo.length done.length w).db =
          (runSlots conn.Query todo w.db).2 ∧
        (SqlQueryHolderEx.ExecuteLoop conn holder todo.length done.length w).trace =
          w.trace ++ (slotTexts todo).map Event.connQuery ∧
        (SqlQueryHolderEx.ExecuteLoop conn holder todo.length done.length w).lockDepth =
          w.lockDepth ∧
        (SqlQueryHolderEx.ExecuteLoop conn holder todo.length done.length w).callbacks =
          w.callbacks ∧
        (SqlQueryHolderEx.ExecuteLoop conn holder todo.length done.length w).queues =
          w.queues ∧
        (SqlQueryHolderEx.ExecuteLoop conn holder todo.length done.length w).threads =
          w.threads ∧
        ∀ other, other ≠ holder →
          (SqlQueryHolderEx.ExecuteLoop conn holder todo.length done.length w).holders other =
            w.holders other
  | [], done, w, hq => by
    simp [SqlQueryHolderEx.ExecuteLoop, runSlots, slotTexts, hq]
  | (some sql, r0) :: rest, done, w, hq => by
    have hlt : done.length < (w.holders holder).m_queries.length := by
      rw [hq]
      simp
    have hget : (w.holders holder).m_queries.get ⟨done.length, hlt⟩ = (some sql, r0) :=
      get_of_eq_append_cons _ done rest _ hq hlt
    have hstep := SqlQueryHolderEx.ExecuteLoop_step_some conn holder rest.length done.length w
      sql hlt (by rw [hget])
    have hlt2 : done.length < ((w.connQuery conn sql).2.holders holder).m_queries.length := hlt
    have hnext : ((SqlQueryHolder.SetResult holder done.length (w.connQuery conn sql).1
        (w.connQuery conn sql).2).holders holder).m_queries =
          (done ++ [(some sql, (conn.Query sql w.db).1)]) ++ rest := by
      rw [SqlQueryHolder.SetResult_in_range holder done.length _ _ hlt2]
      simp only [World.setHolder_holders, Function.update_same, World.connQuery_snd_holders,
        World.connQuery_fst]
      rw [hget, hq]
      simp
    obtain ⟨k1, k2, k3, k4, k5, k6, k7, k8⟩ :=
      SqlQueryHolderEx.ExecuteLoop_spec conn holder rest
        (done ++ [(some sql, (conn.Query sql w.db).1)]) _ hnext
    simp only [List.length_append, List.length_singleton] at k1 k2 k3 k4 k5 k6 k7 k8
    simp only [List.length_cons]
    rw [hstep]
    obtain ⟨f1, f2, f3, f4, f5, f6⟩ := SqlQueryHolder.SetResult_fields holder done.length
      (w.connQuery conn sql).1 (w.connQuery conn sql).2
    rw [f1] at k1 k2
    rw [SqlQueryHolder.SetResult_trace] at k3
    rw [f2] at k4
    rw [f3] at k5
    rw [f4] at k6
    rw [f5] at k7
    refine ⟨?_, ?_, ?_, ?_, ?_, ?_, ?_, ?_⟩
    · rw [k1]
      simp [runSlots]
    · rw [k2]
      simp [runSlots]
    · rw [k3]
      simp [slotTexts]
    · rw [k4]
      rfl
    · rw [k5]
      rfl
    · rw [k6]
      rfl
    · rw [k7]
      rfl
    · intro other ho
      rw [k8 other ho, f6 other ho]
      rfl
  | (none, r0) :: rest, done, w, hq => by
    have hlt : done.length < (w.holders holder).m_queries.length := by
      rw [hq]
      simp
    have hget : (w.holders holder).m_queries.get ⟨done.length, hlt⟩ = (none, r0) :=
      get_of_eq_append_cons _ done rest _ hq hlt
    have hstep := SqlQueryHolderEx.ExecuteLoop_step_none conn holder rest.length done.length w
      hlt (by rw [hget])
    have hnext : (w.holders holder).m_queries = (done ++ [(none, r0)]) ++ rest := by
      rw [hq]
      simp
    obtain ⟨k1, k2, k3, k4, k5, k6, k7, k8⟩ :=
      SqlQueryHolderEx.ExecuteLoop_spec conn holder rest (done ++ [(none, r0)]) w hnext
    simp only [List.length_append, List.length_singleton] at k1 k2 k3 k4 k5 k6 k7 k8
    simp only [List.length_cons]
    rw [hstep]
    refine ⟨?_, k2, ?_, k4, k5, k6, k7, k8⟩
    · rw [k1]
      simp [runSlots]
    · rw [k3]
      simp [slotTexts]

/-- The whole of `SqlQueryHolderEx::Execute` when holder, callback and queue are
present. -/
theorem SqlQueryHolderEx.Execute_spec (conn : SqlConnection σ) (holder callback queue : Nat)
    (w : World σ) :
    ((SqlOperation.SqlQueryHolderEx (some holder) (some callback) (some queue)).Execute
        conn w).1 = true ∧
      (((SqlOperation.SqlQueryHolderEx (some holder) (some callback) (some queue)).Execute
        conn w).2.holders holder).m_queries =
          (runSlots conn.Query (w.holders holder).m_queries w.db).1 ∧
      ((SqlOperation.SqlQueryHolderEx (some holder) (some callback) (some queue)).Execute
        conn w).2.db = (runSlots conn.Query (w.holders holder).m_queries w.db).2 ∧
      ((SqlOperation.SqlQueryHolderEx (some holder) (some callback) (some queue)).Execute
        conn w).2.trace =
          w.trace ++ [Event.lock] ++
            (slotTexts (w.holders holder).m_queries).map Event.connQuery ++
            [Event.mutexLock queue, Event.queuePush queue callback, Event.mutexUnlock queue,
              Event.unlock] ∧
      ((SqlOperation.SqlQueryHolderEx (some holder) (some callback) (some queue)).Execute
        conn w).2.queues queue = w.queues queue ++ [callback] ∧
      (∀ other, other ≠ queue →
        ((SqlOperation.SqlQueryHolderEx (some holder) (some callback) (some queue)).Execute
          conn w).2.queues other = w.queues other) ∧
      (∀ other, other ≠ holder →
        ((SqlOperation.SqlQueryHolderEx (some holder) (some callback) (some queue)).Execute
          conn w).2.holders other = w.holders other) ∧
      ((SqlOperation.SqlQueryHolderEx (some holder) (some callback) (some queue)).Execute
        conn w).2.callbacks = w.callbacks ∧
      ((SqlOperation.SqlQueryHolderEx (some holder) (some callback) (some queue)).Execute
        conn w).2.threads = w.threads := by
  obtain ⟨k1, k2, k3, k4, k5, k6, k7, k8⟩ :=
    SqlQueryHolderEx.ExecuteLoop_spec conn holder (w.holders holder).m_queries [] w.lock
      (by simp)
  simp only [List.length_nil, World.lock_holders, World.lock_db, World.lock_trace,
    List.nil_append] at k1 k2 k3 k4 k5 k6 k7 k8
  refine ⟨?_, ?_, ?_, ?_, ?_, ?_, ?_, ?_, ?_⟩
  · simp [SqlOperation.Execute]
  · simp [SqlOperation.Execute, SqlResultQueue.Add, k1]
  · simp [SqlOperation.Execute, SqlResultQueue.Add, k2]
  · simp [SqlOperation.Execute, SqlResultQueue.Add_trace, k3]
  · simp [SqlOperation.Execute, SqlResultQueue.Add, k6]
  · intro other ho
    simp [SqlOperation.Execute, SqlResultQueue.Add, k6, ho]
  · intro other ho
    simp [SqlOperation.Execute, SqlResultQueue.Add, k8 other ho]
  · funext x
    simp [SqlOperation.Execute, SqlResultQueue.Add, k5]
  · funext x
    simp [SqlOperation.Execute, SqlResultQueue.Add, k7]

theorem count_queuePush_connQuery (queue callback : Nat) (texts : List String) :
    (texts.map Event.connQuery).count (Event.queuePush queue callback) = 0 := by
  induction texts with
  | nil => rfl
  | cons t rest ih =>
    simp only [List.map_cons]
    rw [List.count_cons_of_ne (by simp), ih]

/-- C12: with holder, callback and queue present, the connection calls of
`SqlQueryHolderEx::Execute` are one `Query` for each slot that holds a text, in
increasing index order and with the text of that slot, and nothing for a slot
without text.  Afterwards the slots are those of the reference run `runSlots`:
a slot with text holds what its query returned, the slot count and every text
are as before, and a slot without text keeps the result it had. -/
theorem SqlQueryHolderEx.Execute_slots (conn : SqlConnection σ) (holder callback queue : Nat)
    (w : World σ) :
    ((SqlOperation.SqlQueryHolderEx (some holder) (some callback) (some queue)).Execute
        conn w).2.trace =
          w.trace ++ [Event.lock] ++
            (slotTexts (w.holders holder).m_queries).map Event.connQuery ++
            [Event.mutexLock queue, Event.queuePush queue callback, Event.mutexUnlock queue,
              Event.unlock] ∧
      (((SqlOperation.SqlQueryHolderEx (some holder) (some callback) (some queue)).Execute
        conn w).2.holders holder).m_queries =
          (runSlots conn.Query (w.holders holder).m_queries w.db).1 ∧
      (((SqlOperation.SqlQueryHolderEx (some holder) (some callback) (some queue)).Execute
        conn w).2.holders holder).m_queries.length = (w.holders holder).m_queries.length ∧
      (((SqlOperation.SqlQueryHolderEx (some holder) (some callback) (some queue)).Execute
        conn w).2.holders holder).m_queries.map Prod.fst =
          (w.holders holder).m_queries.map Prod.fst ∧
      (∀ (j : Nat) (r : Option QueryResult), (w.holders holder).m_queries[j]? = some (none, r) →
        (((SqlOperation.SqlQueryHolderEx (some holder) (some callback) (some queue)).Execute
          conn w).2.holders holder).m_queries[j]? = some (none, r)) := by
  obtain ⟨_, h2, _, h4, _⟩ := SqlQueryHolderEx.Execute_spec conn holder callback queue w
  refine ⟨h4, h2, ?_, ?_, ?_⟩
  · rw [h2, runSlots_length]
  · rw [h2, runSlots_texts]
  · intro j r hj
    rw [h2]
    exact runSlots_untouched conn.Query _ w.db j r hj

/-- C13: with holder, callback and queue present, `SqlQueryHolderEx::Execute`
returns true whatever the slot queries return and however many slots hold a
text.  The callback is pushed on the queue once, after the `Query` of the last
slot: the events of the call are the lock, the slot queries, then the push
under the queue mutex, then the release of the lock, and the push occurs once
among them.  The queue afterwards is the old queue with the callback appended. -/
theorem SqlQueryHolderEx.Execute_publishes_once (conn : SqlConnection σ)
    (holder callback queue : Nat) (w : World σ) :
    ((SqlOperation.SqlQueryHolderEx (some holder) (some callback) (some queue)).Execute
        conn w).1 = true ∧
      ((SqlOperation.SqlQueryHolderEx (some holder) (some callback) (some queue)).Execute
        conn w).2.trace =
          w.trace ++ ([Event.lock] ++
            (slotTexts (w.holders holder).m_queries).map Event.connQuery ++
            [Event.mutexLock queue, Event.queuePush queue callback, Event.mutexUnlock queue,
              Event.unlock]) ∧
      ([Event.lock] ++ (slotTexts (w.holders holder).m_queries).map Event.connQuery ++
          [Event.mutexLock queue, Event.queuePush queue callback, Event.mutexUnlock queue,
            Event.unlock]).count (Event.queuePush queue callback) = 1 ∧
      ((SqlOperation.SqlQueryHolderEx (some holder) (some callback) (some queue)).Execute
        conn w).2.queues queue = w.queues queue ++ [callback] ∧
      (∀ other, other ≠ queue →
        ((SqlOperation.SqlQueryHolderEx (some holder) (some callback) (some queue)).Execute
          conn w).2.queues other = w.queues other) := by
  obtain ⟨h1, _, _, h4, h5, h6, _⟩ := SqlQueryHolderEx.Execute_spec conn holder callback queue w
  refine ⟨h1, ?_, ?_, h5, h6⟩
  · rw [h4]
    simp
  · rw [List.count_append, List.count_append, count_queuePush_connQuery]
    simp [List.count_cons]

/-! ## SqlQueryHolder::ManualExecute -/

theorem SqlQueryHolder.ManualExecuteLoop_spec (d : Database σ) :
    ∀ (l : List SqlResultPair) (w : World σ),
      (SqlQueryHolder.ManualExecuteLoop d l w).1 = (runSlots d.Query l w.db).1 ∧
        (SqlQueryHolder.ManualExecuteLoop d l w).2.db = (runSlots d.Query l w.db).2 ∧
        (SqlQueryHolder.ManualExecuteLoop d l w).2.trace =
          w.trace ++ (slotTexts l).map Event.dbQuery ∧
        (SqlQueryHolder.ManualExecuteLoop d l w).2.lockDepth = w.lockDepth ∧
        (SqlQueryHolder.ManualExecuteLoop d l w).2.callbacks = w.callbacks ∧
        (SqlQueryHolder.ManualExecuteLoop d l w).2.queues = w.queues ∧
        (SqlQueryHolder.ManualExecuteLoop d l w).2.threads = w.threads
  | [], w => by simp [SqlQueryHolder.ManualExecuteLoop, runSlots, slotTexts]
  | (some sql, r0) :: rest, w => by
    obtain ⟨k1, k2, k3, k4, k5, k6, k7⟩ :=
      SqlQueryHolder.ManualExecuteLoop_spec d rest (w.dbQuery d sql).2
    simp only [SqlQueryHolder.ManualExecuteLoop, runSlots, slotTexts]
    refine ⟨?_, ?_, ?_, ?_, ?_, ?_, ?_⟩
    · rw [k1]
      simp
    · rw [k2]
      simp
    · rw [k3]
      simp
    · rw [k4]
      rfl
    · rw [k5]
      rfl
    · rw [k6]
      rfl
    · rw [k7]
      rfl
  | (none, r0) :: rest, w => by
    obtain ⟨k1, k2, k3, k4, k5, k6, k7⟩ := SqlQueryHolder.ManualExecuteLoop_spec d rest w
    simp only [SqlQueryHolder.ManualExecuteLoop, runSlots, slotTexts]
    exact ⟨by rw [k1], k2, k3, k4, k5, k6, k7⟩

/-- C17: `ManualExecute` with a null database returns false and leaves the world
as it was.  With a database it returns true whatever the queries return; its
calls are one `Query` on that database for each slot that holds a text, in
increasing index order, and the slots afterwards are those of the reference run
`runSlots`: each slot with text holds what its query returned, the slot count
and the texts are as before, a slot without text is untouched.  No callback, no
result queue, no dispatcher thread and no other holder is changed. -/
theorem SqlQueryHolder.ManualExecute_spec (self : Nat) (w : World σ) :
    SqlQueryHolder.ManualExecute self none w = (false, w) ∧
      ∀ d : Database σ,
        (SqlQueryHolder.ManualExecute self (some d) w).1 = true ∧
          (SqlQueryHolder.ManualExecute self (some d) w).2.trace =
            w.trace ++ (slotTexts (w.holders self).m_queries).map Event.dbQuery ∧
          ((SqlQueryHolder.ManualExecute self (some d) w).2.holders self).m_queries =
            (runSlots d.Query (w.holders self).m_queries w.db).1 ∧
          (SqlQueryHolder.ManualExecute self (some d) w).2.db =
            (runSlots d.Query (w.holders self).m_queries w.db).2 ∧
          ((SqlQueryHolder.ManualExecute self (some d) w).2.holders self).m_queries.length =
            (w.holders self).m_queries.length ∧
          ((SqlQueryHolder.ManualExecute self (some d) w).2.holders self).m_queries.map Prod.fst =
            (w.holders self).m_queries.map Prod.fst ∧
          (∀ (j : Nat) (r : Option QueryResult), (w.holders self).m_queries[j]? = some (none, r) →
            ((SqlQueryHolder.ManualExecute self (some d) w).2.holders self).m_queries[j]? =
              some (none, r)) ∧
          (SqlQueryHolder.ManualExecute self (some d) w).2.callbacks = w.callbacks ∧
          (SqlQueryHolder.ManualExecute self (some d) w).2.queues = w.queues ∧
          (SqlQueryHolder.ManualExecute self (some d) w).2.threads = w.threads ∧
          (∀ other, other ≠ self →
            (SqlQueryHolder.ManualExecute self (some d) w).2.holders other =
              w.holders other) := by
  refine ⟨rfl, fun d => ?_⟩
  obtain ⟨k1, k2, k3, _, k5, k6, k7⟩ :=
    SqlQueryHolder.ManualExecuteLoop_spec d (w.holders self).m_queries w
  have hh := SqlQueryHolder.ManualExecuteLoop_holders d (w.holders self).m_queries w
  have hs : ((SqlQueryHolder.ManualExecute self (some d) w).2.holders self).m_queries =
      (runSlots d.Query (w.holders self).m_queries w.db).1 := by
    simp [SqlQueryHolder.ManualExecute, k1]
  refine ⟨rfl, ?_, hs, ?_, ?_, ?_, ?_, ?_, ?_, ?_, ?_⟩
  · simp [SqlQueryHolder.ManualExecute, k3]
  · simp [SqlQueryHolder.ManualExecute, k2]
  · rw [hs, runSlots_length]
  · rw [hs, runSlots_texts]
  · intro j r hj
    rw [hs]
    exact runSlots_untouched d.Query _ w.db j r hj
  · funext x
    simp [SqlQueryHolder.ManualExecute, k5]
  · funext x
    simp [SqlQueryHolder.ManualExecute, k6]
  · funext x
    simp [SqlQueryHolder.ManualExecute, k7]
  · intro other ho
    simp [SqlQueryHolder.ManualExecute, ho, hh]

/-! ## The queue mutex during Update -/

/-- C19 as stated fails: with one callback in the queue, `Update` calls its
`Execute` between the acquisition and the release of the queue mutex. -/
theorem SqlResultQueue.Update_counterexample :
    (SqlResultQueue.Update 0 (addAll 0 [7] sampleWorld)).trace =
        [Event.mutexLock 0, Event.queuePush 0 7, Event.mutexUnlock 0, Event.mutexLock 0,
          Event.queuePop 0 7, Event.cbExecute 7, Event.cbDelete 7, Event.mutexUnlock 0] ∧
      invokedOutsideLock 0 false
        (SqlResultQueue.Update 0 (addAll 0 [7] sampleWorld)).trace = false := by
  decide

theorem invokedUnderLock_drain (queue : Nat) :
    ∀ (l : List Nat) (tail : List Event),
      invokedUnderLock queue true (drainEvents queue l ++ tail) =
        invokedUnderLock queue true tail
  | [], tail => rfl
  | c :: rest, tail => by
    simp [drainEvents, invokedUnderLock, mutexHeldAfter, invokedUnderLock_drain queue rest tail]

theorem count_mutexLock_drain (queue : Nat) :
    ∀ (l : List Nat), (drainEvents queue l).count (Event.mutexLock queue) = 0 ∧
      (drainEvents queue l).count (Event.mutexUnlock queue) = 0
  | [] => ⟨rfl, rfl⟩
  | c :: rest => by
    obtain ⟨h1, h2⟩ := count_mutexLock_drain queue rest
    simp [drainEvents, List.count_cons, h1, h2]

/-- C19, amended: `SqlResultQueue::Update` takes the queue mutex once, on entry,
and releases it once, on return: the events of a run are one `mutexLock`, then
for each queued callback in order its pop, its `Execute` and its deletion, then
one `mutexUnlock`.  Every pop and every call of a callback's `Execute` of the
run is made while the mutex is held. -/
theorem SqlResultQueue.Update_holds_mutex (queue : Nat) (w : World σ) :
    (SqlResultQueue.Update queue w).trace = w.trace ++ updateEvents queue (w.queues queue) ∧
      invokedUnderLock queue false (updateEvents queue (w.queues queue)) = true ∧
      (updateEvents queue (w.queues queue)).count (Event.mutexLock queue) = 1 ∧
      (updateEvents queue (w.queues queue)).count (Event.mutexUnlock queue) = 1 ∧
      ∃ inner, updateEvents queue (w.queues queue) =
        Event.mutexLock queue :: (inner ++ [Event.mutexUnlock queue]) ∧
        invoked inner = w.queues queue ∧
        inner.count (Event.mutexUnlock queue) = 0 := by
  obtain ⟨c1, c2⟩ := count_mutexLock_drain queue (w.queues queue)
  refine ⟨?_, ?_, ?_, ?_, drainEvents queue (w.queues queue), ?_, ?_, c2⟩
  · rw [SqlResultQueue.Update_trace]
    simp [updateEvents]
  · have key : updateEvents queue (w.queues queue) =
        Event.mutexLock queue :: (drainEvents queue (w.queues queue) ++
          [Event.mutexUnlock queue]) := by
      simp [updateEvents]
    rw [key]
    simp only [invokedUnderLock, mutexHeldAfter, if_true]
    rw [invokedUnderLock_drain]
    simp [invokedUnderLock, mutexHeldAfter]
  · simp [updateEvents, List.count_cons, c1]
  · simp [updateEvents, List.count_cons, c2]
  · simp [updateEvents]
  · exact invoked_drainEvents queue _

/-! ## The connection lock -/

theorem lockScan_append :
    ∀ (a b : List Event) (depth : Nat),
      lockScan depth (a ++ b) = (lockScan depth a).bind (fun d => lockScan d b)
  | [], b, depth => by simp [lockScan]
  | e :: a, b, depth => by
    cases e <;> cases depth <;>
      simp [lockScan, Event.isConnCall, lockScan_append a b]

theorem lockScan_connQuery (depth : Nat) :
    ∀ (texts : List String),
      lockScan (depth + 1) (texts.map Event.connQuery) = some (depth + 1)
  | [] => rfl
  | t :: rest => by
    simp [lockScan, lockScan_connQuery depth rest]

theorem lockScan_of_connQuery (depth : Nat) :
    ∀ (d : List Event), (∀ e ∈ d, ∃ sql, e = Event.connQuery sql) →
      lockScan (depth + 1) d = some (depth + 1)
  | [], _ => rfl
  | e :: rest, h => by
    obtain ⟨sql, rfl⟩ := h e (List.mem_cons_self _ _)
    have ih := lockScan_of_connQuery depth rest (fun x hx => h x (List.mem_cons_of_mem _ hx))
    simp [lockScan, ih]

theorem SqlQueryHolderEx.ExecuteLoop_lockDepth (conn : SqlConnection σ) (holder : Nat) :
    ∀ (fuel i : Nat) (w : World σ),
      (SqlQueryHolderEx.ExecuteLoop conn holder fuel i w).lockDepth = w.lockDepth
  | 0, _, w => by simp [SqlQueryHolderEx.ExecuteLoop]
  | fuel + 1, i, w => by
    unfold SqlQueryHolderEx.ExecuteLoop
    simp only
    split
    · split
      · rw [SqlQueryHolderEx.ExecuteLoop_lockDepth conn holder fuel (i + 1)]
        rw [(SqlQueryHolder.SetResult_fields holder i _ _).2.1]
        rfl
      · exact SqlQueryHolderEx.ExecuteLoop_lockDepth conn holder fuel (i + 1) w
    · rfl

mutual

theorem SqlOperation.Execute_lockScan (conn : SqlConnection σ) :
    ∀ (op : SqlOperation) (w : World σ),
      ∃ delta, (op.Execute conn w).2.trace = w.trace ++ delta ∧
        (∀ depth, lockScan depth delta = some depth) ∧
        (op.Execute conn w).2.lockDepth = w.lockDepth
  | .SqlPlainRequest m_sql, w =>
    ⟨[Event.lock, Event.connExecute m_sql, Event.unlock], by
      simp [SqlOperation.Execute, lockScan, Event.isConnCall]⟩
  | .SqlTransaction m_queue, w => by
    obtain ⟨d, hd, hs, hl⟩ :=
      SqlTransaction.ExecuteLoop_lockScan conn m_queue (w.lock.beginTransaction conn)
    unfold SqlOperation.Execute
    by_cases he : m_queue.isEmpty = true
    · exact ⟨[], by simp [he, lockScan]⟩
    · simp only [he]
      by_cases hr : (SqlTransaction.ExecuteLoop conn m_queue
          (w.lock.beginTransaction conn)).1 = true
      · refine ⟨[Event.lock, Event.beginTransaction] ++ d ++
          [Event.commitTransaction, Event.unlock], ?_, ?_, ?_⟩
        · simp [hr, hd]
        · intro depth
          simp [lockScan, lockScan_append, hs depth, Event.isConnCall]
        · simp [hr, hl]
      · refine ⟨[Event.lock, Event.beginTransaction] ++ d ++ [Event.unlock], ?_, ?_, ?_⟩
        · simp [hr, hd]
        · intro depth
          simp [lockScan, lockScan_append, hs depth, Event.isConnCall]
        · simp [hr, hl]
  | .SqlPreparedRequest m_nIndex m_param, w =>
    ⟨[Event.lock, Event.connExecuteStmt m_nIndex m_param, Event.unlock], by
      simp [SqlOperation.Execute, lockScan, Event.isConnCall]⟩
  | .SqlQuery m_sql m_callback m_queue, w => by
    unfold SqlOperation.Execute
    split
    · rename_i callback queue
      refine ⟨[Event.lock, Event.connQuery m_sql,
        Event.cbSetResult callback (conn.Query m_sql w.db).1, Event.mutexLock queue,
        Event.queuePush queue callback, Event.mutexUnlock queue, Event.unlock], ?_, ?_, ?_⟩
      · simp [SqlResultQueue.Add_trace]
      · intro depth
        simp [lockScan, Event.isConnCall]
      · simp [(SqlResultQueue.Add_fields _ _ _).2.1]
    · exact ⟨[], by simp [lockScan]⟩
  | .SqlQueryHolderEx m_holder m_callback m_queue, w => by
    unfold SqlOperation.Execute
    split
    · rename_i holder callback queue
      obtain ⟨d, hd, hq⟩ := SqlQueryHolderEx.ExecuteLoop_trace conn holder
        (w.lock.holders holder).m_queries.length 0 w.lock
      rw [World.lock_holders] at hd
      refine ⟨[Event.lock] ++ d ++ [Event.mutexLock queue,
        Event.queuePush queue callback, Event.mutexUnlock queue, Event.unlock], ?_, ?_, ?_⟩
      · simp [SqlResultQueue.Add_trace, hd]
      · intro depth
        simp [lockScan, lockScan_append, lockScan_of_connQuery depth d hq, Event.isConnCall]
      · simp [(SqlResultQueue.Add_fields _ _ _).2.1, SqlQueryHolderEx.ExecuteLoop_lockDepth]
    · exact ⟨[], by simp [lockScan]⟩

theorem SqlTransaction.ExecuteLoop_lockScan (conn : SqlConnection σ) :
    ∀ (q : List SqlOperation) (w : World σ),
      ∃ delta, (SqlTransaction.ExecuteLoop conn q w).2.trace = w.trace ++ delta ∧
        (∀ depth, lockScan (depth + 1) delta = some (depth + 1)) ∧
        (SqlTransaction.ExecuteLoop conn q w).2.lockDepth = w.lockDepth
  | [], w => ⟨[], by simp [SqlTransaction.ExecuteLoop, lockScan]⟩
  | pStmt :: rest, w => by
    obtain ⟨d1, h1, s1, l1⟩ := SqlOperation.Execute_lockScan conn pStmt w
    obtain ⟨d2, h2, s2, l2⟩ :=
      SqlTransaction.ExecuteLoop_lockScan conn rest (SqlOperation.Execute conn pStmt w).2
    unfold SqlTransaction.ExecuteLoop
    by_cases hr : (SqlOperation.Execute conn pStmt w).1 = true
    · refine ⟨d1 ++ d2, by simp [hr, h2, h1], ?_, by simp [hr, l2, l1]⟩
      intro depth
      simp [lockScan_append, s1 (depth + 1), s2 depth]
    · refine ⟨d1 ++ [Event.rollbackTransaction], by simp [hr, h1], ?_, by simp [hr, l1]⟩
      intro depth
      simp [lockScan_append, s1 (depth + 1), lockScan, Event.isConnCall]

end

/-- C20: for every operation, whatever its variant and its outcome, the events
`Execute` appends to the trace pass the scan `lockScan` started with no guard
held: every call on the connection (`Execute`, `ExecuteStmt`, `Query`,
`BeginTransaction`, `CommitTransaction`, `RollbackTransaction`) is made while a
guard taken during this call of `Execute` is held, no guard is released that
was not taken, and at the end no guard is left held; the lock depth of the
world on return is the lock depth on entry.  This covers the early rollback
return of a transaction and the nested `Execute` of its children. -/
theorem SqlOperation.Execute_lock_balanced (conn : SqlConnection σ) (op : SqlOperation)
    (w : World σ) :
    ∃ delta, (op.Execute conn w).2.trace = w.trace ++ delta ∧
      lockScan 0 delta = some 0 ∧
      (op.Execute conn w).2.lockDepth = w.lockDepth := by
  obtain ⟨delta, h1, h2, h3⟩ := SqlOperation.Execute_lockScan conn op w
  exact ⟨delta, h1, h2 0, h3⟩

/-! ## End to end: a holder with an unset slot -/

/-- A slot on which `SetQuery` is called with the empty string is not an empty
slot: it holds a text, the empty one, and its query is issued like any other
(here between the queries of slots 0 and 2). -/
theorem holderScenario_empty_string_is_text :
    (holderScenario sampleConn 0 1 2 3 [some "SELECT 1", some "", some "SELECT 2"]
        sampleWorld).trace =
      [Event.delay 2, Event.lock, Event.connQuery "SELECT 1", Event.connQuery "",
        Event.connQuery "SELECT 2", Event.mutexLock 3, Event.queuePush 3 1,
        Event.mutexUnlock 3, Event.unlock, Event.mutexLock 3, Event.queuePop 3 1,
        Event.cbExecute 1, Event.cbDelete 1, Event.mutexUnlock 3] := by
  decide

/-- C14: for every connection, when a new holder is sized to 3 slots and built
with the text `SELECT 1` in slot 0 and the text `SELECT 2` in slot 2 while slot 1
is empty (it holds no text: `SetQuery` is not called on it), and the result
queue and the dispatcher thread have nothing pending, then the run (submit with
`SqlQueryHolder::Execute`, the dispatcher executes the `SqlQueryHolderEx`,
`SqlResultQueue::Update`) issues exactly the queries of slots 0 and 2 in that
order and skips slot 1, pushes the callback once after both, and `Update`
invokes the callback once.  Afterwards `GetResult(0)` and `GetResult(2)` return
what the queries `SELECT 1` and `SELECT 2` returned. -/
theorem holderScenario_unset_slot (conn : SqlConnection σ)
    (self callback thread queue : Nat) (w : World σ)
    (hq : w.queues queue = []) (hth : w.threads thread = []) :
    (holderScenario conn self callback thread queue
        [some "SELECT 1", none, some "SELECT 2"] w).trace =
      w.trace ++ [Event.delay thread, Event.lock, Event.connQuery "SELECT 1",
        Event.connQuery "SELECT 2", Event.mutexLock queue, Event.queuePush queue callback,
        Event.mutexUnlock queue, Event.unlock, Event.mutexLock queue,
        Event.queuePop queue callback, Event.cbExecute callback, Event.cbDelete callback,
        Event.mutexUnlock queue] ∧
      ((holderScenario conn self callback thread queue
        [some "SELECT 1", none, some "SELECT 2"] w).holders self).m_queries =
        [(some "SELECT 1", (conn.Query "SELECT 1" w.db).1), (none, none),
          (some "SELECT 2", (conn.Query "SELECT 2" (conn.Query "SELECT 1" w.db).2).1)] ∧
      (SqlQueryHolder.GetResult self 0
        (holderScenario conn self callback thread queue
          [some "SELECT 1", none, some "SELECT 2"] w)).1 = (conn.Query "SELECT 1" w.db).1 ∧
      (SqlQueryHolder.GetResult self 2
        (SqlQueryHolder.GetResult self 0
          (holderScenario conn self callback thread queue
            [some "SELECT 1", none, some "SELECT 2"] w)).2).1 =
        (conn.Query "SELECT 2" (conn.Query "SELECT 1" w.db).2).1 := by
  have hslots : ((holderScenario conn self callback thread queue
      [some "SELECT 1", none, some "SELECT 2"] w).holders self).m_queries =
      [(some "SELECT 1", (conn.Query "SELECT 1" w.db).1), (none, none),
        (some "SELECT 2", (conn.Query "SELECT 2" (conn.Query "SELECT 1" w.db).2).1)] := by
    simp [holderScenario, SqlQueryHolder.new, SqlQueryHolder.SetSize, SqlQueryHolder.setAll,
      SqlQueryHolder.SetQuery, SqlQueryHolder.Execute, SqlDelayThread.ProcessRequests,
      SqlDelayThread.ProcessRequestsLoop, hth, SqlOperation.Execute,
      SqlQueryHolderEx.ExecuteLoop, SqlQueryHolder.SetResult, SqlResultQueue.Update,
      SqlResultQueue.UpdateLoop, SqlResultQueue.Add, hq]
  refine ⟨?_, hslots, ?_, ?_⟩
  · simp [holderScenario, SqlQueryHolder.new, SqlQueryHolder.SetSize, SqlQueryHolder.setAll,
      SqlQueryHolder.SetQuery, SqlQueryHolder.Execute, SqlDelayThread.ProcessRequests,
      SqlDelayThread.ProcessRequestsLoop, hth, SqlOperation.Execute,
      SqlQueryHolderEx.ExecuteLoop, SqlQueryHolder.SetResult, SqlResultQueue.Update,
      SqlResultQueue.UpdateLoop, SqlResultQueue.Add, hq]
  · simp [SqlQueryHolder.GetResult, hslots]
  · simp [SqlQueryHolder.GetResult, hslots]

/-- Witness for C14: the sample connection and the sample world, holder 0,
callback 1, thread 2, queue 3. -/
theorem holderScenario_unset_slot_witness :
    sampleWorld.queues 3 = [] ∧ sampleWorld.threads 2 = [] ∧
      (SqlQueryHolder.GetResult 0 0
        (holderScenario sampleConn 0 1 2 3
          [some "SELECT 1", none, some "SELECT 2"] sampleWorld)).1 = some 0 ∧
      (SqlQueryHolder.GetResult 0 2
        (SqlQueryHolder.GetResult 0 0
          (holderScenario sampleConn 0 1 2 3
            [some "SELECT 1", none, some "SELECT 2"] sampleWorld)).2).1 = some 1 :=
  ⟨rfl, rfl,
    (holderScenario_unset_slot sampleConn 0 1 2 3 sampleWorld rfl rfl).2.2.1,
    (holderScenario_unset_slot sampleConn 0 1 2 3 sampleWorld rfl rfl).2.2.2⟩

/-! ## SetPQuery and a text that does not fit the buffer -/

/-- C15 fails on the code: with the standard `vsnprintf`, a text of
`MAX_QUERY_LEN` characters or more (up to the range of `int`) makes the call
return the length of the text, which is not -1, so `SetPQuery` goes on to
`SetQuery` with the buffer: on a free slot it returns true and the slot holds
the first `MAX_QUERY_LEN - 1` characters of the text. -/
theorem SqlQueryHolder.SetPQuery_stores_truncated (MAX_QUERY_LEN self index : Nat)
    (fmt rendered : String) (r : Option QueryResult) (w : World σ)
    (hpos : 0 < MAX_QUERY_LEN) (hfit : MAX_QUERY_LEN ≤ rendered.length)
    (hint : rendered.length ≤ 2147483647)
    (hslot : (w.holders self).m_queries[index]? = some (none, r)) :
    (SqlQueryHolder.SetPQueryRendered MAX_QUERY_LEN self index (some fmt) rendered w).1 = true ∧
      ((SqlQueryHolder.SetPQueryRendered MAX_QUERY_LEN self index (some fmt) rendered
        w).2.holders self).m_queries[index]? =
          some (some (String.mk (rendered.data.take (MAX_QUERY_LEN - 1))), none) ∧
      (String.mk (rendered.data.take (MAX_QUERY_LEN - 1))).length < rendered.length := by
  have hres : (vsnprintf MAX_QUERY_LEN rendered).1 ≠ -1 := by
    simp only [vsnprintf, hint, if_true]
    omega
  have hlt : index < (w.holders self).m_queries.length := by
    rcases Nat.lt_or_ge index (w.holders self).m_queries.length with h | h
    · exact h
    · rw [List.getElem?_eq_none h] at hslot
      cases hslot
  have hcall : SqlQueryHolder.SetPQueryRendered MAX_QUERY_LEN self index (some fmt) rendered w =
      SqlQueryHolder.SetQuery self index (vsnprintf MAX_QUERY_LEN rendered).2 w := by
    simp only [SqlQueryHolder.SetPQueryRendered, SqlQueryHolder.SetPQuery]
    rw [if_neg hres]
  rcases SqlQueryHolder.SetQuery_cases self index (vsnprintf MAX_QUERY_LEN rendered).2 w with
    ⟨hle, _⟩ | ⟨old, r2, hs, _⟩ | ⟨r2, _, he⟩
  · exact absurd hlt (Nat.not_lt.2 hle)
  · rw [hslot] at hs
    cases hs
  · rw [hcall, he]
    refine ⟨rfl, ?_, ?_⟩
    · simp [hlt, vsnprintf]
    · have hl : rendered.length = rendered.data.length := rfl
      have ht : (String.mk (rendered.data.take (MAX_QUERY_LEN - 1))).length =
          min (MAX_QUERY_LEN - 1) rendered.data.length := by
        show (rendered.data.take (MAX_QUERY_LEN - 1)).length = _
        rw [List.length_take]
      rw [ht, hl]
      rw [hl] at hfit
      omega

/-- Witness for C15: a buffer of 16 bytes and a rendered text of 24 characters,
on the free slot 0 of a holder sized to one slot: the slot ends up holding the
first 15 characters. -/
theorem SqlQueryHolder.SetPQuery_stores_truncated_witness :
    (SqlQueryHolder.SetPQueryRendered 16 0 0 (some "%s") "SELECT * FROM characters"
        (SqlQueryHolder.SetSize 0 1 sampleWorld)).1 = true ∧
      ((SqlQueryHolder.SetPQueryRendered 16 0 0 (some "%s") "SELECT * FROM characters"
        (SqlQueryHolder.SetSize 0 1 sampleWorld)).2.holders 0).m_queries[0]? =
          some (some (String.mk ("SELECT * FROM characters".data.take (16 - 1))), none) :=
  ⟨(SqlQueryHolder.SetPQuery_stores_truncated 16 0 0 "%s" "SELECT * FROM characters" none
      (SqlQueryHolder.SetSize 0 1 sampleWorld)
      (by decide) (by decide) (by decide) (by decide)).1,
    (SqlQueryHolder.SetPQuery_stores_truncated 16 0 0 "%s" "SELECT * FROM characters" none
      (SqlQueryHolder.SetSize 0 1 sampleWorld)
      (by decide) (by decide) (by decide) (by decide)).2.1⟩

/-! ## SqlQueryHolder::SetSize -/

/-- C22: after `SetSize(size)` the holder has exactly `size` slots; the slots that
existed before and are below `size` keep their text and result, every slot
beyond the old count holds no text and a null result.  On a newly constructed
holder, after `SetSize(size)`, a call `SetQuery(i, sql)` returns true exactly
when `i < size`. -/
theorem SqlQueryHolder.SetSize_spec (self size : Nat) (w : World σ) :
    ((SqlQueryHolder.SetSize self size w).holders self).m_queries.length = size ∧
      (∀ j : Nat, j < min (w.holders self).m_queries.length size →
        ((SqlQueryHolder.SetSize self size w).holders self).m_queries[j]? =
          (w.holders self).m_queries[j]?) ∧
      (∀ j : Nat, (w.holders self).m_queries.length ≤ j → j < size →
        ((SqlQueryHolder.SetSize self size w).holders self).m_queries[j]? =
          some (none, none)) ∧
      (∀ (i : Nat) (sql : String),
        (SqlQueryHolder.SetQuery self i sql
          (SqlQueryHolder.SetSize self size (SqlQueryHolder.new self w))).1 = true ↔
            i < size) := by
  refine ⟨?_, ?_, ?_, ?_⟩
  · simp only [SqlQueryHolder.SetSize, World.setHolder_holders, Function.update_same,
      List.length_append, List.length_take, List.length_replicate]
    omega
  · intro j hj
    simp only [SqlQueryHolder.SetSize, World.setHolder_holders, Function.update_same]
    have h1 : j < (w.holders self).m_queries.length := by omega
    have h2 : j < size := by omega
    rw [List.getElem?_append_left (by simp [List.length_take]; omega)]
    exact List.getElem?_take_of_lt h2
  · intro j hj hs
    simp only [SqlQueryHolder.SetSize, World.setHolder_holders, Function.update_same]
    rw [List.getElem?_append_right (by simp [List.length_take]; omega)]
    rw [List.getElem?_replicate]
    simp only [List.length_take]
    rw [if_pos (by omega)]
  · intro i sql
    have hslots : ((SqlQueryHolder.SetSize self size
        (SqlQueryHolder.new self w)).holders self).m_queries =
        List.replicate size (none, none) := by
      simp [SqlQueryHolder.SetSize, SqlQueryHolder.new]
    rcases SqlQueryHolder.SetQuery_cases self i sql
        (SqlQueryHolder.SetSize self size (SqlQueryHolder.new self w)) with
      ⟨hle, he⟩ | ⟨old, r, hs, he⟩ | ⟨r, hs, he⟩
    · rw [he]
      rw [hslots] at hle
      simp only [List.length_replicate] at hle
      constructor
      · intro h
        cases h
      · intro h
        omega
    · rw [hslots, List.getElem?_replicate] at hs
      split at hs
      · cases hs
      · cases hs
    · rw [he]
      rw [hslots, List.getElem?_replicate] at hs
      split at hs
      · rename_i hlt
        exact ⟨fun _ => hlt, fun _ => rfl⟩
      · cases hs

/-! ## Case mapping of wide characters -/

set_option maxHeartbeats 1600000 in
theorem wcharToLower_wcharToUpper (c : Int) (h : wcharToUpper c ≠ c) :
    wcharToLower (wcharToUpper c) = c := by
  generalize hv : wcharToUpper c = v at h ⊢
  unfold wcharToUpper uint16 at hv
  unfold wcharToLower uint16
  repeat' split at hv
  all_goals (subst hv; repeat' split)
  all_goals omega

set_option maxHeartbeats 1600000 in
theorem wcharToUpper_wcharToLower (c : Int) (h : wcharToLower c ≠ c) :
    wcharToUpper (wcharToLower c) = c := by
  generalize hv : wcharToLower c = v at h ⊢
  unfold wcharToLower uint16 at hv
  unfold wcharToUpper uint16
  repeat' split at hv
  all_goals (subst hv; repeat' split)
  all_goals omega

set_option maxHeartbeats 1600000 in
theorem wcharToUpper_idem (c : Int) : wcharToUpper (wcharToUpper c) = wcharToUpper c := by
  generalize hv : wcharToUpper c = v
  unfold wcharToUpper uint16 at hv
  unfold wcharToUpper uint16
  repeat' split at hv
  all_goals (subst hv; repeat' split)
  all_goals omega

set_option maxHeartbeats 1600000 in
theorem wcharToLower_idem (c : Int) : wcharToLower (wcharToLower c) = wcharToLower c := by
  generalize hv : wcharToLower c = v
  unfold wcharToLower uint16 at hv
  unfold wcharToLower uint16
  repeat' split at hv
  all_goals (subst hv; repeat' split)
  all_goals omega

theorem isBasicLatinCharacter_iff (c : Int) :
    isBasicLatinCharacter c = true ↔ (0x61 ≤ c ∧ c ≤ 0x7A) ∨ (0x41 ≤ c ∧ c ≤ 0x5A) := by
  unfold isBasicLatinCharacter
  repeat' split
  all_goals simp only [Bool.false_eq_true, false_iff, true_iff]
  all_goals omega

theorem isExtendedLatinCharacter_iff (c : Int) :
    isExtendedLatinCharacter c = true ↔
      (0x41 ≤ c ∧ c ≤ 0x5A) ∨ (0x61 ≤ c ∧ c ≤ 0x7A) ∨ (0xC0 ≤ c ∧ c ≤ 0xD6) ∨
        (0xD8 ≤ c ∧ c ≤ 0xF6) ∨ (0xF8 ≤ c ∧ c ≤ 0xFE) ∨ (0x100 ≤ c ∧ c ≤ 0x12F) ∨
        c = 0x1E9E := by
  unfold isExtendedLatinCharacter
  repeat' split
  all_goals simp only [Bool.false_eq_true, false_iff, true_iff, isBasicLatinCharacter_iff] at *
  all_goals omega

theorem isCyrillicCharacter_iff (c : Int) :
    isCyrillicCharacter c = true ↔ (0x410 ≤ c ∧ c ≤ 0x44F) ∨ c = 0x401 ∨ c = 0x451 := by
  unfold isCyrillicCharacter
  repeat' split
  all_goals simp only [Bool.false_eq_true, false_iff, true_iff]
  all_goals omega

theorem wcharToUpper_extendedLatin (c : Int) (h : isExtendedLatinCharacter c = true) :
    isExtendedLatinCharacter (wcharToUpper c) = true := by
  rw [isExtendedLatinCharacter_iff] at h ⊢
  generalize hv : wcharToUpper c = v
  unfold wcharToUpper uint16 at hv
  repeat' split at hv
  all_goals omega

theorem wcharToLower_extendedLatin (c : Int) (h : isExtendedLatinCharacter c = true) :
    isExtendedLatinCharacter (wcharToLower c) = true := by
  rw [isExtendedLatinCharacter_iff] at h ⊢
  generalize hv : wcharToLower c = v
  unfold wcharToLower uint16 at hv
  repeat' split at hv
  all_goals omega

theorem wcharToUpper_cyrillic (c : Int) (h : isCyrillicCharacter c = true) :
    isCyrillicCharacter (wcharToUpper c) = true := by
  rw [isCyrillicCharacter_iff] at h ⊢
  generalize hv : wcharToUpper c = v
  unfold wcharToUpper uint16 at hv
  repeat' split at hv
  all_goals omega

theorem wcharToLower_cyrillic (c : Int) (h : isCyrillicCharacter c = true) :
    isCyrillicCharacter (wcharToLower c) = true := by
  rw [isCyrillicCharacter_iff] at h ⊢
  generalize hv : wcharToLower c = v
  unfold wcharToLower uint16 at hv
  repeat' split at hv
  all_goals omega

/-- C23: for every wide character `c`: a character changed by `wcharToUpper` is
mapped back by `wcharToLower`, a character changed by `wcharToLower` is mapped
back by `wcharToUpper`, both maps are idempotent, and each of them maps a
character accepted by `isExtendedLatinCharacter` to one accepted by
`isExtendedLatinCharacter` and a character accepted by `isCyrillicCharacter` to
one accepted by `isCyrillicCharacter`. -/
theorem wcharToUpper_wcharToLower_round_trip (c : Int) :
    (wcharToUpper c ≠ c → wcharToLower (wcharToUpper c) = c) ∧
      (wcharToLower c ≠ c → wcharToUpper (wcharToLower c) = c) ∧
      wcharToUpper (wcharToUpper c) = wcharToUpper c ∧
      wcharToLower (wcharToLower c) = wcharToLower c ∧
      (isExtendedLatinCharacter c = true → isExtendedLatinCharacter (wcharToUpper c) = true) ∧
      (isExtendedLatinCharacter c = true → isExtendedLatinCharacter (wcharToLower c) = true) ∧
      (isCyrillicCharacter c = true → isCyrillicCharacter (wcharToUpper c) = true) ∧
      (isCyrillicCharacter c = true → isCyrillicCharacter (wcharToLower c) = true) :=
  ⟨wcharToLower_wcharToUpper c, wcharToUpper_wcharToLower c, wcharToUpper_idem c,
    wcharToLower_idem c, wcharToUpper_extendedLatin c, wcharToLower_extendedLatin c,
    wcharToUpper_cyrillic c, wcharToLower_cyrillic c⟩

/-! ## Die::roll -/

theorem Die.Hits_zero (base c random : Nat) (rest : List Nat) :
    Die.Hits base (c :: rest) random 0 ↔ c ≠ 0 ∧ random ≤ (base + c) % 4294967296 := by
  simp [Die.Hits]

theorem Die.Hits_succ (base c random s : Nat) (rest : List Nat) :
    Die.Hits base (c :: rest) random (s + 1) ↔
      Die.Hits ((base + c) % 4294967296) rest random s := by
  simp only [Die.Hits, List.getElem?_cons_succ, List.take_succ_cons, List.sum_cons]
  have hm : ∀ x : Nat, (base + (c + x)) % 4294967296 =
      ((base + c) % 4294967296 + x) % 4294967296 := by
    intro x
    omega
  simp only [hm]

theorem Die.Hits_succ_zero (base random s : Nat) (rest : List Nat) :
    Die.Hits base (0 :: rest) random (s + 1) ↔ Die.Hits base rest random s := by
  simp only [Die.Hits, List.getElem?_cons_succ, List.take_succ_cons, List.sum_cons, Nat.zero_add]

/-- What the loop of `Die::roll` returns: the first side from `side` on that hits. -/
theorem Die.rollLoop_spec (random : Nat) :
    ∀ (chance : List Nat) (side rolling : Nat),
      (∀ s, Die.rollLoop random side rolling chance = some s ↔
        ∃ k, s = side + k ∧ Die.Hits rolling chance random k ∧
          ∀ j, j < k → ¬ Die.Hits rolling chance random j) ∧
      (Die.rollLoop random side rolling chance = none ↔
        ∀ k, ¬ Die.Hits rolling chance random k)
  | [], side, rolling => by
    simp [Die.rollLoop, Die.Hits]
  | c :: rest, side, rolling => by
    by_cases hc : c = 0
    · subst hc
      obtain ⟨ih1, ih2⟩ := Die.rollLoop_spec random rest (side + 1) rolling
      have hz : ¬ Die.Hits rolling (0 :: rest) random 0 := by
        simp [Die.Hits_zero]
      simp only [Die.rollLoop, ne_eq, not_true_eq_false, if_false]
      constructor
      · intro s
        rw [ih1 s]
        constructor
        · rintro ⟨k, rfl, hk, hmin⟩
          refine ⟨k + 1, by omega, (Die.Hits_succ_zero _ _ _ _).2 hk, ?_⟩
          intro j hj
          cases j with
          | zero => exact hz
          | succ j =>
            rw [Die.Hits_succ_zero]
            exact hmin j (by omega)
        · rintro ⟨k, rfl, hk, hmin⟩
          cases k with
          | zero => exact absurd hk hz
          | succ k =>
            refine ⟨k, by omega, (Die.Hits_succ_zero _ _ _ _).1 hk, ?_⟩
            intro j hj
            have := hmin (j + 1) (by omega)
            rwa [Die.Hits_succ_zero] at this
      · rw [ih2]
        constructor
        · intro h k
          cases k with
          | zero => exact hz
          | succ k =>
            rw [Die.Hits_succ_zero]
            exact h k
        · intro h k
          have := h (k + 1)
          rwa [Die.Hits_succ_zero] at this
    · obtain ⟨ih1, ih2⟩ :=
        Die.rollLoop_spec random rest (side + 1) ((rolling + c) % 4294967296)
      by_cases hr : random ≤ (rolling + c) % 4294967296
      · have h0 : Die.Hits rolling (c :: rest) random 0 := (Die.Hits_zero _ _ _ _).2 ⟨hc, hr⟩
        simp only [Die.rollLoop, ne_eq, hc, not_false_eq_true, if_true, hr]
        constructor
        · intro s
          constructor
          · intro hs
            refine ⟨0, by simpa using (Option.some.inj hs).symm, h0, ?_⟩
            intro j hj
            omega
          · rintro ⟨k, rfl, _, hmin⟩
            cases k with
            | zero => rfl
            | succ k => exact absurd h0 (hmin 0 (by omega))
        · constructor
          · intro h
            cases h
          · intro h
            exact absurd h0 (h 0)
      · have h0 : ¬ Die.Hits rolling (c :: rest) random 0 := by
          rw [Die.Hits_zero]
          exact fun h => hr h.2
        simp only [Die.rollLoop, ne_eq, hc, not_false_eq_true, if_true, hr, if_false]
        constructor
        · intro s
          rw [ih1 s]
          constructor
          · rintro ⟨k, rfl, hk, hmin⟩
            refine ⟨k + 1, by omega, (Die.Hits_succ _ _ _ _ _).2 hk, ?_⟩
            intro j hj
            cases j with
            | zero => exact h0
            | succ j =>
              rw [Die.Hits_succ]
              exact hmin j (by omega)
          · rintro ⟨k, rfl, hk, hmin⟩
            cases k with
            | zero => exact absurd hk h0
            | succ k =>
              refine ⟨k, by omega, (Die.Hits_succ _ _ _ _ _).1 hk, ?_⟩
              intro j hj
              have := hmin (j + 1) (by omega)
              rwa [Die.Hits_succ] at this
        · rw [ih2]
          constructor
          · intro h k
            cases k with
            | zero => exact h0
            | succ k =>
              rw [Die.Hits_succ]
              exact h k
          · intro h k
            have := h (k + 1)
            rwa [Die.Hits_succ] at this

theorem Die.exists_Hits (random : Nat) :
    ∀ (chance : List Nat) (base : Nat), base + chance.sum < 4294967296 → base < random →
      random ≤ base + chance.sum → ∃ k, Die.Hits base chance random k
  | [], base, _, h1, h2 => by
    simp only [List.sum_nil, Nat.add_zero] at h2
    omega
  | c :: rest, base, hb, h1, h2 => by
    simp only [List.sum_cons] at hb h2
    by_cases hr : random ≤ base + c
    · refine ⟨0, (Die.Hits_zero _ _ _ _).2 ⟨by omega, ?_⟩⟩
      rw [Nat.mod_eq_of_lt (by omega)]
      exact hr
    · have hm : (base + c) % 4294967296 = base + c := Nat.mod_eq_of_lt (by omega)
      obtain ⟨k, hk⟩ := Die.exists_Hits random rest (base + c) (by omega) (by omega) (by omega)
      refine ⟨k + 1, (Die.Hits_succ _ _ _ _ _).2 ?_⟩
      rw [hm]
      exact hk

theorem sum_take_le (l : List Nat) (n : Nat) : (l.take n).sum ≤ l.sum := by
  have h := congrArg List.sum (List.take_append_drop n l)
  rw [List.sum_append] at h
  omega

/-- C24: for every table of chances and every `random`, the loop of `Die::roll`
returns at side `s` exactly when `s` is the smallest side whose chance is not
zero and for which `random` is at most the sum of the chances of the sides
`0..s` modulo 2^32 (`Die.Hits 0`), and it runs to its end exactly when there is
no such side; `roll` then gives `Side(s)`, respectively `Default`.  A side with
chance zero is never the side returned.  When the chances sum to at most 10000,
every `random` from 1 to the sum makes the loop return at a side and every
`random` above the sum gives `Default`. -/
theorem Die.roll_spec {Side : Type} (Default : Side) (toSide : Nat → Side)
    (chance : List Nat) (random : Nat) :
    (∀ s, Die.rollSide chance random = some s ↔
        Die.Hits 0 chance random s ∧ ∀ j, j < s → ¬ Die.Hits 0 chance random j) ∧
      (Die.rollSide chance random = none ↔ ∀ s, ¬ Die.Hits 0 chance random s) ∧
      (∀ s, Die.rollSide chance random = some s →
        Die.roll Default toSide chance random = toSide s) ∧
      (Die.rollSide chance random = none → Die.roll Default toSide chance random = Default) ∧
      (∀ s, Die.rollSide chance random = some s → chance[s]? ≠ some 0) ∧
      (chance.sum ≤ 10000 →
        (1 ≤ random → random ≤ chance.sum → ∃ s, Die.rollSide chance random = some s) ∧
          (chance.sum < random → Die.rollSide chance random = none ∧
            Die.roll Default toSide chance random = Default)) := by
  obtain ⟨h1, h2⟩ := Die.rollLoop_spec random chance 0 0
  have hsome : ∀ s, Die.rollSide chance random = some s ↔
      Die.Hits 0 chance random s ∧ ∀ j, j < s → ¬ Die.Hits 0 chance random j := by
    intro s
    unfold Die.rollSide
    rw [h1 s]
    constructor
    · rintro ⟨k, rfl, hk, hmin⟩
      rw [Nat.zero_add]
      exact ⟨hk, hmin⟩
    · rintro ⟨hk, hmin⟩
      exact ⟨s, by omega, hk, hmin⟩
  have hnone : Die.rollSide chance random = none ↔ ∀ s, ¬ Die.Hits 0 chance random s := h2
  have hdef : Die.rollSide chance random = none →
      Die.roll Default toSide chance random = Default := by
    intro h
    simp [Die.roll, h]
  refine ⟨hsome, hnone, ?_, hdef, ?_, ?_⟩
  · intro s h
    simp [Die.roll, h]
  · intro s h hz
    obtain ⟨⟨c, hc, hne, _⟩, _⟩ := (hsome s).1 h
    rw [hc] at hz
    exact hne (Option.some.inj hz)
  · intro hsum
    constructor
    · intro hr1 hr2
      obtain ⟨k, hk⟩ := Die.exists_Hits random chance 0 (by omega) (by omega) (by omega)
      cases hroll : Die.rollSide chance random with
      | some s => exact ⟨s, rfl⟩
      | none => exact absurd hk (hnone.1 hroll k)
    · intro hr
      have hn : Die.rollSide chance random = none := by
        rw [hnone]
        rintro s ⟨c, _, _, hle⟩
        have h3 := sum_take_le chance (s + 1)
        have h4 : (0 + (chance.take (s + 1)).sum) % 4294967296 ≤ (chance.take (s + 1)).sum := by
          rw [Nat.zero_add]
          exact Nat.mod_le _ _
        omega
      exact ⟨hn, hdef hn⟩

/-! ## Disposal of texts and results -/

theorem SqlQueryHolder.destroyLoop_trace :
    ∀ (l : List SqlResultPair) (w : World σ),
      (SqlQueryHolder.destroyLoop l w).trace = w.trace ++ destroyEvents l
  | [], w => by simp [SqlQueryHolder.destroyLoop, destroyEvents]
  | (some text, result) :: rest, w => by
    simp [SqlQueryHolder.destroyLoop, destroyEvents, SqlQueryHolder.destroyLoop_trace rest]
  | (none, result) :: rest, w => by
    simp [SqlQueryHolder.destroyLoop, destroyEvents, SqlQueryHolder.destroyLoop_trace rest]

/-- The destructor frees the text and deletes the result of exactly the slots that
hold a text when it runs. -/
theorem SqlQueryHolder.destroy_trace (self : Nat) (w : World σ) :
    (SqlQueryHolder.destroy self w).trace =
      w.trace ++ destroyEvents (w.holders self).m_queries :=
  SqlQueryHolder.destroyLoop_trace _ w

/-- C21 fails on the code: on a new holder, `SetSize(1)` and `SetQuery(0, sql)` make
the holder own a copy of the text (the call returns true); `SetSize(0)` then
drops the slot without freeing the text, and the destructor, which finds no
slot, frees nothing: over this history the text is released zero times.  The
same history without the `SetSize(0)` ends with the destructor freeing the text
and deleting the result of the slot. -/
theorem SqlQueryHolder.SetSize_drops_text :
    (SqlQueryHolder.SetQuery 0 0 "SELECT 1"
        (SqlQueryHolder.SetSize 0 1 (SqlQueryHolder.new 0 sampleWorld))).1 = true ∧
      (SqlQueryHolder.destroy 0
        (SqlQueryHolder.SetSize 0 0
          (SqlQueryHolder.SetQuery 0 0 "SELECT 1"
            (SqlQueryHolder.SetSize 0 1 (SqlQueryHolder.new 0 sampleWorld))).2)).trace = [] ∧
      (SqlQueryHolder.destroy 0
        (SqlQueryHolder.SetQuery 0 0 "SELECT 1"
          (SqlQueryHolder.SetSize 0 1 (SqlQueryHolder.new 0 sampleWorld))).2).trace =
        [Event.freeText "SELECT 1", Event.deleteResult none] := by
  decide

/-! ## Every adopted text is freed once or dropped by SetSize -/

theorem freed_append (a b : List Event) : freed (a ++ b) = freed a ++ freed b := by
  induction a with
  | nil => rfl
  | cons e rest ih => cases e <;> simp [freed, ih]

theorem freed_dbQuery (texts : List String) : freed (texts.map Event.dbQuery) = [] := by
  induction texts with
  | nil => rfl
  | cons t rest ih => simp [freed, ih]

theorem freed_destroyEvents : ∀ (l : List SqlResultPair), freed (destroyEvents l) = slotTexts l
  | [] => rfl
  | (some text, r) :: rest => by simp [destroyEvents, freed, slotTexts, freed_destroyEvents rest]
  | (none, r) :: rest => by simp [destroyEvents, slotTexts, freed_destroyEvents rest]

theorem slotTexts_append :
    ∀ (a b : List SqlResultPair), slotTexts (a ++ b) = slotTexts a ++ slotTexts b
  | [], b => rfl
  | (some text, r) :: rest, b => by simp [slotTexts, slotTexts_append rest b]
  | (none, r) :: rest, b => by simp [slotTexts, slotTexts_append rest b]

theorem slotTexts_replicate (n : Nat) :
    slotTexts (List.replicate n ((none, none) : SqlResultPair)) = [] := by
  induction n with
  | zero => rfl
  | succ n ih => simp [List.replicate_succ, slotTexts, ih]

theorem slotTexts_of_texts :
    ∀ (a b : List SqlResultPair), a.map Prod.fst = b.map Prod.fst → slotTexts a = slotTexts b
  | [], [], _ => rfl
  | [], _ :: _, h => by simp at h
  | _ :: _, [], h => by simp at h
  | (x, r) :: a, (y, r2) :: b, h => by
    simp only [List.map_cons, List.cons.injEq] at h
    obtain ⟨hxy, hab⟩ := h
    have ih := slotTexts_of_texts a b hab
    subst hxy
    cases x <;> simp [slotTexts, ih]

theorem slotTexts_set_text (s text : String) (x : Option QueryResult) :
    ∀ (l : List SqlResultPair) (i : Nat) (r : Option QueryResult), l[i]? = some (none, r) →
      (slotTexts (l.set i (some text, x))).count s = (slotTexts l).count s + [text].count s
  | [], i, r, h => by simp at h
  | p :: rest, 0, r, h => by
    simp only [List.getElem?_cons_zero, Option.some.injEq] at h
    subst h
    simp [slotTexts, List.count_cons]
  | (some t, r0) :: rest, i + 1, r, h => by
    simp only [List.getElem?_cons_succ] at h
    have ih := slotTexts_set_text s text x rest i r h
    simp only [List.set_cons_succ, slotTexts, List.count_cons] at ih ⊢
    omega
  | (none, r0) :: rest, i + 1, r, h => by
    simp only [List.getElem?_cons_succ] at h
    have ih := slotTexts_set_text s text x rest i r h
    simp only [List.set_cons_succ, slotTexts] at ih ⊢
    exact ih

theorem slotTexts_set_none (s text : String) (x : Option QueryResult) :
    ∀ (l : List SqlResultPair) (i : Nat) (r : Option QueryResult),
      l[i]? = some (some text, r) →
      (slotTexts l).count s = (slotTexts (l.set i (none, x))).count s + [text].count s
  | [], i, r, h => by simp at h
  | p :: rest, 0, r, h => by
    simp only [List.getElem?_cons_zero, Option.some.injEq] at h
    subst h
    simp [slotTexts, List.count_cons]
  | (some t, r0) :: rest, i + 1, r, h => by
    simp only [List.getElem?_cons_succ] at h
    have ih := slotTexts_set_none s text x rest i r h
    simp only [List.set_cons_succ, slotTexts, List.count_cons] at ih ⊢
    omega
  | (none, r0) :: rest, i + 1, r, h => by
    simp only [List.getElem?_cons_succ] at h
    have ih := slotTexts_set_none s text x rest i r h
    simp only [List.set_cons_succ, slotTexts] at ih ⊢
    exact ih

theorem slotTexts_set_result (a : Option String) (x : Option QueryResult) :
    ∀ (l : List SqlResultPair) (i : Nat) (r : Option QueryResult), l[i]? = some (a, r) →
      slotTexts (l.set i (a, x)) = slotTexts l
  | [], i, r, h => by simp at h
  | p :: rest, 0, r, h => by
    simp only [List.getElem?_cons_zero, Option.some.injEq] at h
    subst h
    cases a <;> simp [slotTexts]
  | (some t, r0) :: rest, i + 1, r, h => by
    simp only [List.getElem?_cons_succ] at h
    simp [slotTexts, slotTexts_set_result a x rest i r h]
  | (none, r0) :: rest, i + 1, r, h => by
    simp only [List.getElem?_cons_succ] at h
    simp [slotTexts, slotTexts_set_result a x rest i r h]

/-- The three ways through `GetResult`: index out of range, slot with text, slot
without text. -/
theorem SqlQueryHolder.GetResult_cases (self index : Nat) (w : World σ) :
    ((w.holders self).m_queries.length ≤ index ∧
        SqlQueryHolder.GetResult self index w = (none, w)) ∨
      (∃ text r, (w.holders self).m_queries[index]? = some (some text, r) ∧
        SqlQueryHolder.GetResult self index w =
          (r, (w.emit (Event.freeText text)).setHolder self
            ⟨(w.holders self).m_queries.set index (none, r)⟩)) ∨
      (∃ r, (w.holders self).m_queries[index]? = some (none, r) ∧
        SqlQueryHolder.GetResult self index w = (r, w)) := by
  by_cases hlt : index < (w.holders self).m_queries.length
  · right
    have hget := lookup_eq_some_get (w.holders self).m_queries index hlt
    unfold SqlQueryHolder.GetResult
    simp only [hlt, dite_true]
    split
    · rename_i text heq
      left
      refine ⟨text, ((w.holders self).m_queries.get ⟨index, hlt⟩).2, ?_, rfl⟩
      rw [hget, ← heq]
    · rename_i heq
      right
      refine ⟨((w.holders self).m_queries.get ⟨index, hlt⟩).2, ?_, rfl⟩
      rw [hget, ← heq]
  · left
    exact ⟨Nat.le_of_not_lt hlt, by simp [SqlQueryHolder.GetResult, hlt]⟩

/-- One call: what was freed before, plus the texts in the slots, plus the text
adopted by the call, is what is freed after the call, plus the texts of the
slots the call removed, plus the texts in the slots after it (counted per
text `s`). -/
theorem HolderOp.account_step (self : Nat) (s : String) (op : HolderOp σ) (w : World σ) :
    (freed w.trace).count s + (slotTexts (w.holders self).m_queries).count s +
        (op.adopts self w).count s =
      (freed (op.run self w).trace).count s + (op.drops self w).count s +
        (slotTexts ((op.run self w).holders self).m_queries).count s := by
  cases op with
  | SetSize size =>
    have hsplit : slotTexts (w.holders self).m_queries =
        slotTexts ((w.holders self).m_queries.take size) ++
          slotTexts ((w.holders self).m_queries.drop size) := by
      rw [← slotTexts_append, List.take_append_drop]
    simp only [HolderOp.adopts, HolderOp.drops, HolderOp.run, SqlQueryHolder.SetSize,
      World.setHolder_holders, Function.update_same, World.setHolder_trace, slotTexts_append,
      slotTexts_replicate, List.append_nil, List.count_nil, Nat.add_zero]
    rw [hsplit, List.count_append]
    omega
  | SetQuery i sql =>
    simp only [HolderOp.adopts, HolderOp.drops, HolderOp.run, List.count_nil, Nat.add_zero]
    rcases SqlQueryHolder.SetQuery_cases self i sql w with
      ⟨_, he⟩ | ⟨old, r, _, he⟩ | ⟨r, hs, he⟩
    · rw [he]
      simp [freed_append, freed]
    · rw [he]
      simp [freed_append, freed]
    · rw [he]
      have h := slotTexts_set_text s sql none (w.holders self).m_queries i r hs
      simp only [if_true, World.setHolder_holders, Function.update_same, World.setHolder_trace]
      omega
  | SetPQuery i format res szQuery =>
    simp only [HolderOp.adopts, HolderOp.drops, HolderOp.run, List.count_nil, Nat.add_zero]
    rcases SqlQueryHolder.SetPQuery_cases self i format res szQuery w with ⟨hf, hh⟩ | he
    · have ht : freed (SqlQueryHolder.SetPQuery self i format res szQuery w).2.trace =
          freed w.trace := by
        unfold SqlQueryHolder.SetPQuery at hf ⊢
        cases format with
        | none => simp [freed_append, freed]
        | some fmt =>
          dsimp only at hf ⊢
          by_cases hr : res = -1
          · rw [if_pos hr]
            simp [freed_append, freed]
          · rw [if_neg hr] at hf ⊢
            rcases SqlQueryHolder.SetQuery_cases self i szQuery w with
              ⟨_, he⟩ | ⟨old, r, _, he⟩ | ⟨r, hs, he⟩
            · rw [he]
              simp [freed_append, freed]
            · rw [he]
              simp [freed_append, freed]
            · rw [he] at hf
              cases hf
      rw [hf, ht, hh]
      simp
    · rw [he]
      rcases SqlQueryHolder.SetQuery_cases self i szQuery w with
        ⟨_, he2⟩ | ⟨old, r, _, he2⟩ | ⟨r, hs, he2⟩
      · rw [he2]
        simp [freed_append, freed]
      · rw [he2]
        simp [freed_append, freed]
      · rw [he2]
        have h := slotTexts_set_text s szQuery none (w.holders self).m_queries i r hs
        simp only [if_true, World.setHolder_holders, Function.update_same,
          World.setHolder_trace]
        omega
  | GetResult i =>
    simp only [HolderOp.adopts, HolderOp.drops, HolderOp.run, List.count_nil, Nat.add_zero]
    rcases SqlQueryHolder.GetResult_cases self i w with
      ⟨_, he⟩ | ⟨text, r, hs, he⟩ | ⟨r, _, he⟩
    · rw [he]
    · rw [he]
      have h := slotTexts_set_none s text r (w.holders self).m_queries i r hs
      simp only [World.setHolder_holders, Function.update_same, World.setHolder_trace,
        World.emit_trace, freed_append, freed, List.count_append]
      omega
    · rw [he]
  | SetResult i result =>
    simp only [HolderOp.adopts, HolderOp.drops, HolderOp.run, List.count_nil, Nat.add_zero]
    rw [SqlQueryHolder.SetResult_trace]
    by_cases hlt : i < (w.holders self).m_queries.length
    · rw [SqlQueryHolder.SetResult_in_range self i result w hlt]
      have hget := lookup_eq_some_get (w.holders self).m_queries i hlt
      have h := slotTexts_set_result ((w.holders self).m_queries.get ⟨i, hlt⟩).1 result
        (w.holders self).m_queries i ((w.holders self).m_queries.get ⟨i, hlt⟩).2 hget
      simp only [World.setHolder_holders, Function.update_same]
      rw [h]
    · have he : SqlQueryHolder.SetResult self i result w = w := by
        simp [SqlQueryHolder.SetResult, hlt]
      rw [he]
  | ManualExecute db =>
    simp only [HolderOp.adopts, HolderOp.drops, HolderOp.run, List.count_nil, Nat.add_zero]
    cases db with
    | none => rfl
    | some d =>
      obtain ⟨k1, _, k3, _⟩ :=
        SqlQueryHolder.ManualExecuteLoop_spec d (w.holders self).m_queries w
      have ht := SqlQueryHolder.ManualExecuteLoop_texts d (w.holders self).m_queries w
      have hslots : slotTexts ((SqlQueryHolder.ManualExecute self (some d) w).2.holders
          self).m_queries = slotTexts (w.holders self).m_queries := by
        apply slotTexts_of_texts
        simpa [SqlQueryHolder.ManualExecute] using ht
      have htrace : freed (SqlQueryHolder.ManualExecute self (some d) w).2.trace =
          freed w.trace := by
        simp [SqlQueryHolder.ManualExecute, k3, freed_append, freed_dbQuery]
      rw [hslots, htrace]

/-- Accounting over a history followed by destruction, per text `s`: what was freed
before, plus the texts in the slots at the start, plus the texts adopted by the
calls, is what is freed by the calls and the destructor, plus the texts of the
slots removed by `SetSize`. -/
theorem holder_text_account (self : Nat) (s : String) :
    ∀ (ops : List (HolderOp σ)) (w : World σ),
      (freed w.trace).count s + (slotTexts (w.holders self).m_queries).count s +
          (adoptedBy self ops w).count s =
        (freed (SqlQueryHolder.destroy self (runOps self ops w)).trace).count s +
          (droppedBy self ops w).count s
  | [], w => by
    simp [adoptedBy, droppedBy, runOps, SqlQueryHolder.destroy_trace, freed_append,
      freed_destroyEvents]
  | op :: rest, w => by
    have hstep := HolderOp.account_step self s op w
    have ih := holder_text_account self s rest (op.run self w)
    simp only [adoptedBy, droppedBy, runOps, List.count_append]
    omega

/-- On a new holder and an empty trace, over a history in which `SetSize` removes no
slot that holds a text, the texts freed by the calls and the destructor are the
texts adopted, each as many times as it was adopted. -/
theorem holder_texts_freed_once (self : Nat) (ops : List (HolderOp σ)) (w : World σ)
    (htrace : w.trace = []) (hdrop : droppedBy self ops (SqlQueryHolder.new self w) = []) :
    List.Perm
      (freed (SqlQueryHolder.destroy self (runOps self ops (SqlQueryHolder.new self w))).trace)
      (adoptedBy self ops (SqlQueryHolder.new self w)) := by
  rw [List.perm_iff_count]
  intro s
  have h := holder_text_account self s ops (SqlQueryHolder.new self w)
  rw [hdrop] at h
  simp [SqlQueryHolder.new, htrace, freed, slotTexts] at h
  simpa [SqlQueryHolder.new] using h.symm

end Mangos
